import Mathlib

/-!
A verification development for the ticketd coordination engine
(package `ticket`: `ticket.go`, `snapshot.go`).

The engine state is two string-keyed maps, `sessions` and `resources`;
tickets live inside resources and carry nullable references to their
issuer and claimant sessions.  We embed the state functionally:

* Go maps become association lists with first-match lookup.
* Go pointers to `Session` become the session id (`Option String` for
  the nullable `Issuer`/`Claimant` fields).  In every state the engine
  itself constructs, live sessions have pairwise distinct ids and every
  non-nil session pointer points at the session stored in the map under
  its id, so pointer equality coincides with id equality.
* A session's `Tickets`/`Issuances` slices hold back-references that the
  code only ever consults through the `(ResourceName, Name)` pair
  (`fetchTicketPtr`, `ticketAddOrUpdate`, `ticketRemove`), so we store
  the key pairs themselves.
* The writer goroutine applies one operation at a time, so each public
  operation is a pure function `State → result × State`.
* `Lock`/`Unlock` dereference `ticket.Issuer.Id` without a nil check;
  we return `none` (for the resulting runtime panic) on that path and
  `some` of the ordinary result otherwise.

Time is a `Nat` millisecond clock passed explicitly to the operations
that read it (`refresh`, the expiration sweep).
-/

namespace TicketD

/-- Back-reference identity of a ticket: `(ResourceName, Name)`. -/
abbrev TKey := String × String

/-- `Ticket` from ticket.go: name, owning resource, payload, nullable
issuer and claimant session references (modelled by session id). -/
structure Ticket where
  name : String
  resourceName : String
  data : List Nat
  issuer : Option String
  claimant : Option String
deriving DecidableEq

/-- `Session` from ticket.go.  `tickets` are the claimed back-references,
`issuances` the issued ones, kept as `(ResourceName, Name)` keys. -/
structure Session where
  name : String
  id : String
  src : String
  ttl : Nat
  tickets : List TKey
  issuances : List TKey
  expires : Nat
deriving DecidableEq

/-- `Resource` from ticket.go: name, lock flag, name-keyed ticket map. -/
structure Resource where
  name : String
  isLock : Bool
  tickets : List (String × Ticket)
deriving DecidableEq

abbrev Sessions := List (String × Session)
abbrev Resources := List (String × Resource)

/-- The two authoritative maps owned by the writer goroutine. -/
structure State where
  sessions : Sessions
  resources : Resources
deriving DecidableEq

def State.empty : State := ⟨[], []⟩

/-! ### Association-list operations standing in for Go maps -/

/-- Map lookup (`m[k]`, nil when absent). -/
def alookup {β : Type} (k : String) : List (String × β) → Option β
  | [] => none
  | (k', v) :: t => if k' = k then some v else alookup k t

/-- Map write (`m[k] = v`): replaces the entry if present, else appends. -/
def aupsert {β : Type} (k : String) (v : β) : List (String × β) → List (String × β)
  | [] => [(k, v)]
  | (k', v') :: t => if k' = k then (k, v) :: t else (k', v') :: aupsert k v t

/-- Map delete (`delete(m, k)`). -/
def aerase {β : Type} (k : String) : List (String × β) → List (String × β)
  | [] => []
  | (k', v) :: t => if k' = k then aerase k t else (k', v) :: aerase k t

/-- In-place update of the ticket stored at `tn` (mutation through the
map's ticket pointer). -/
def updTicketIn (tn : String) (f : Ticket → Ticket) :
    List (String × Ticket) → List (String × Ticket)
  | [] => []
  | (k, t) :: rest =>
    if k = tn then (k, f t) :: rest else (k, t) :: updTicketIn tn f rest

/-- In-place update of the ticket at key `key` inside the resource map. -/
def updTicket (key : TKey) (f : Ticket → Ticket) : Resources → Resources
  | [] => []
  | (rn, r) :: rest =>
    if rn = key.1 then (rn, { r with tickets := updTicketIn key.2 f r.tickets }) :: rest
    else (rn, r) :: updTicket key f rest

/-- `fetchTicketPtr` (ticket.go): resolve a back-reference to the ticket
currently stored under its `(ResourceName, Name)` key. -/
def fetchTicketPtr (k : TKey) (resources : Resources) : Option Ticket :=
  match alookup k.1 resources with
  | none => none
  | some r => alookup k.2 r.tickets

/-- `ticketAddOrUpdate` (ticket.go): replace the entry with matching
`(Name, ResourceName)` or append.  On keys, replacement is the identity. -/
def ticketAddOrUpdate (l : List TKey) (k : TKey) : List TKey :=
  if k ∈ l then l else l ++ [k]

/-- `ticketRemove` (ticket.go): find the first entry with matching
identity, overwrite it with the list's last element, and truncate.
The recursion computes exactly that: when the match is at the head the
last element fills the hole and the tail loses its last slot; before the
match the element is kept and the swap happens inside the tail (whose
last element is the whole list's last element). -/
def ticketRemove : List TKey → TKey → List TKey
  | [], _ => []
  | x :: xs, k =>
    if x = k then
      match xs.getLast? with
      | none => []
      | some last => last :: xs.dropLast
    else x :: ticketRemove xs k

/-- `newTicket` (ticket.go): fresh ticket, no claimant. -/
def newTicket (name resname issuerId : String) (data : List Nat) : Ticket :=
  ⟨name, resname, data, some issuerId, none⟩

/-- `newResource` (ticket.go): fresh resource with an empty ticket map. -/
def newResource (name : String) (isLock : Bool) : Resource :=
  ⟨name, isLock, []⟩

/-! ### clearClaims and the expiration sweep -/

/-- One iteration of the first `clearClaims` loop: resolve the claimed
back-reference and null the canonical ticket's claimant if it still
points at this session. -/
def clearClaimStep (sid : String) (k : TKey) (res : Resources) : Resources :=
  match fetchTicketPtr k res with
  | some t =>
    if t.claimant = some sid then
      updTicket k (fun u => { u with claimant := none }) res
    else res
  | none => res

/-- First loop of `clearClaims` over the claimed back-references. -/
def clearClaimed (sid : String) : List TKey → Resources → Resources
  | [], res => res
  | k :: ks, res => clearClaimed sid ks (clearClaimStep sid k res)

/-- One iteration of the second `clearClaims` loop: null the issuer of
an issued ticket that still points at this session. -/
def clearIssueStep (sid : String) (k : TKey) (res : Resources) : Resources :=
  match fetchTicketPtr k res with
  | some t =>
    if t.issuer = some sid then
      updTicket k (fun u => { u with issuer := none }) res
    else res
  | none => res

/-- Second loop of `clearClaims` over the issued back-references. -/
def clearIssued (sid : String) : List TKey → Resources → Resources
  | [], res => res
  | k :: ks, res => clearIssued sid ks (clearIssueStep sid k res)

/-- `clearClaims` (ticket.go).  The Go code finally empties the session's
two slices; both call sites delete the session immediately afterwards,
so only the resource map is returned. -/
def clearClaims (s : Session) (res : Resources) : Resources :=
  clearIssued s.id s.issuances (clearClaimed s.id s.tickets res)

/-- Sessions whose deadline has passed (`s.expires.Before(time.Now())`). -/
def expiredList (now : Nat) : Sessions → List Session
  | [] => []
  | (_, s) :: rest =>
    if s.expires < now then s :: expiredList now rest else expiredList now rest

/-- Sessions surviving the sweep. -/
def liveSessions (now : Nat) : Sessions → Sessions
  | [] => []
  | (k, s) :: rest =>
    if s.expires < now then liveSessions now rest else (k, s) :: liveSessions now rest

/-- Second sweep loop: delete every ticket whose issuer is nil. -/
def dropNullIssuers : List (String × Ticket) → List (String × Ticket)
  | [] => []
  | (k, t) :: rest =>
    if t.issuer = none then dropNullIssuers rest else (k, t) :: dropNullIssuers rest

def sweepTickets : Resources → Resources
  | [] => []
  | (k, r) :: rest => (k, { r with tickets := dropNullIssuers r.tickets }) :: sweepTickets rest

/-- Third sweep loop: delete every resource left with no tickets. -/
def dropEmptyResources : Resources → Resources
  | [] => []
  | (k, r) :: rest =>
    if r.tickets = [] then dropEmptyResources rest else (k, r) :: dropEmptyResources rest

/-- `expireSessions` (ticket.go): clear and delete every expired session,
then purge nil-issuer tickets, then garbage-collect empty resources.
`clearClaims` never reads the session map, so clearing all expired
sessions before removing them matches the interleaved Go loop. -/
def expireSessions (st : State) (now : Nat) : State :=
  let cleared := (expiredList now st.sessions).foldl (fun acc s => clearClaims s acc) st.resources
  ⟨liveSessions now st.sessions, dropEmptyResources (sweepTickets cleared)⟩

/-! ### Session operations -/

/-- Engine error kinds (`ErrNotFound`, `ErrResourceType`, the malformed
lock report, and RevokeTicket's unknown-ticket error). -/
inductive Err
  | notFound
  | resourceType
  | malformed
  | unknownTicket
deriving DecidableEq

/-- `OpenSession`: register a freshly generated session.  The generated
ksuid is passed in as `id`; `refresh` sets `expires = now + ttl`. -/
def openSession (st : State) (id name src : String) (ttl now : Nat) : State :=
  let s : Session := ⟨name, id, src, ttl, [], [], now + ttl⟩
  ⟨aupsert id s st.sessions, st.resources⟩

/-- `CloseSession`: clear claims and issuances, then delete the session. -/
def closeSession (st : State) (id : String) : Except Err Unit × State :=
  match alookup id st.sessions with
  | some s => (.ok (), ⟨aerase id st.sessions, clearClaims s st.resources⟩)
  | none => (.error .notFound, st)

/-- `RefreshSession`: reset the deadline to `now + ttl`. -/
def refreshSession (st : State) (id : String) (now : Nat) : Except Err Unit × State :=
  match alookup id st.sessions with
  | some s => (.ok (), ⟨aupsert id { s with expires := now + s.ttl } st.sessions, st.resources⟩)
  | none => (.error .notFound, st)

/-! ### Ticket operations -/

/-- Body of `IssueTicket` after the session and resource checks: build the
new ticket, take over the old one's claimant if present, install it, and
record the issuance.  Besides the new state it returns the displaced old
ticket record after its `Issuer = nil` mutation (the object the Go code
mutates just before it becomes unreachable from the map). -/
def issuePerform (st : State) (sess : Session) (sessId resource name : String)
    (data : List Nat) (r : Resource) : Except Err (Option Ticket) × State :=
  let t := newTicket name resource sess.id data
  let old := alookup name r.tickets
  let t :=
    match old with
    | some o => { t with claimant := o.claimant }
    | none => t
  let r := { r with tickets := aupsert name t r.tickets }
  let sess := { sess with issuances := ticketAddOrUpdate sess.issuances (resource, name) }
  (.ok (old.map fun o => { o with issuer := none }),
    ⟨aupsert sessId sess st.sessions, aupsert resource r st.resources⟩)

/-- `IssueTicket` (ticket.go 360-395).  The session is refreshed before
the lock-resource check, so the refresh survives even the
`ErrResourceType` failure. -/
def issueTicket (st : State) (sessId resource name : String) (data : List Nat)
    (now : Nat) : Except Err (Option Ticket) × State :=
  match alookup sessId st.sessions with
  | none => (.error .notFound, st)
  | some sess =>
    let sess := { sess with expires := now + sess.ttl }
    let st : State := ⟨aupsert sessId sess st.sessions, st.resources⟩
    match alookup resource st.resources with
    | some r =>
      if r.isLock then (.error .resourceType, st)
      else issuePerform st sess sessId resource name data r
    | none => issuePerform st sess sessId resource name data (newResource resource false)

/-- `RevokeTicket` (ticket.go 398-429): delete the ticket (whoever issued
it) and drop it from the requesting session's issuance list. -/
def revokeTicket (st : State) (sessId resource name : String) :
    Except Err Unit × State :=
  match alookup sessId st.sessions with
  | none => (.error .notFound, st)
  | some sess =>
    match alookup resource st.resources with
    | none => (.error .notFound, st)
    | some r =>
      match alookup name r.tickets with
      | none => (.error .unknownTicket, st)
      | some tick =>
        let r' := { r with tickets := aerase name r.tickets }
        let sess' := { sess with issuances := ticketRemove sess.issuances (tick.resourceName, tick.name) }
        (.ok (), ⟨aupsert sessId sess' st.sessions, aupsert resource r' st.resources⟩)

/-- The `ClaimTicket` candidate test: a live issuer, and unclaimed or
already claimed by this session. -/
def isCandidate (sid : String) (t : Ticket) : Prop :=
  t.issuer ≠ none ∧ (t.claimant = none ∨ t.claimant = some sid)

instance (sid : String) (t : Ticket) : Decidable (isCandidate sid t) := by
  unfold isCandidate; infer_instance

/-- The claim scan: first ticket with a live issuer that is unclaimed or
already claimed by this session, returned with its claimant set and the
updated ticket map.  (Go iterates the map in unspecified order; the
model fixes insertion order.) -/
def claimScan (sid : String) : List (String × Ticket) → Option (Ticket × List (String × Ticket))
  | [] => none
  | (tn, t) :: rest =>
    if isCandidate sid t then
      let t' := { t with claimant := some sid }
      some (t', (tn, t') :: rest)
    else
      (claimScan sid rest).map fun pr => (pr.1, (tn, t) :: pr.2)

/-- `ClaimTicket` (ticket.go 435-469).  A missing resource yields
`(false, nil)` with no error; on success the claimed ticket is recorded
in the session and a deep copy of it is returned. -/
def claimTicket (st : State) (sessId resource : String) :
    Except Err (Bool × Option Ticket) × State :=
  match alookup sessId st.sessions with
  | none => (.error .notFound, st)
  | some sess =>
    match alookup resource st.resources with
    | none => (.ok (false, none), st)
    | some r =>
      if r.isLock then (.error .resourceType, st)
      else
        match claimScan sess.id r.tickets with
        | none => (.ok (false, none), st)
        | some (ft, tickets') =>
          let sess' := { sess with tickets := ticketAddOrUpdate sess.tickets (ft.resourceName, ft.name) }
          (.ok (true, some ft),
            ⟨aupsert sessId sess' st.sessions, aupsert resource { r with tickets := tickets' } st.resources⟩)

/-- `ReleaseTicket` (ticket.go 472-498): null the claimant and drop the
back-reference when this session holds the ticket; silent no-op otherwise. -/
def releaseTicket (st : State) (sessId resource name : String) :
    Except Err Unit × State :=
  match alookup sessId st.sessions with
  | none => (.error .notFound, st)
  | some sess =>
    match alookup resource st.resources with
    | none => (.error .notFound, st)
    | some r =>
      match alookup name r.tickets with
      | some t =>
        if t.claimant = some sess.id then
          let r' := { r with tickets := updTicketIn name (fun u => { u with claimant := none }) r.tickets }
          let sess' := { sess with tickets := ticketRemove sess.tickets (t.resourceName, t.name) }
          (.ok (), ⟨aupsert sessId sess' st.sessions, aupsert resource r' st.resources⟩)
        else (.ok (), st)
      | none => (.ok (), st)

/-- `HasTicket` (ticket.go 501-525). -/
def hasTicket (st : State) (sessId resource name : String) : Except Err Bool × State :=
  match alookup sessId st.sessions with
  | none => (.error .notFound, st)
  | some sess =>
    match alookup resource st.resources with
    | none => (.error .notFound, st)
    | some r =>
      match alookup name r.tickets with
      | some t => (.ok (if t.claimant = some sess.id then true else false), st)
      | none => (.ok false, st)

/-! ### Lock operations -/

/-- Body of `Lock` once the resource (with `IsLock` true) is in hand and
registered in the state.  Returns `none` where the Go code dereferences
a nil `Issuer` pointer and panics. -/
def lockWith (st : State) (sess : Session) (sessId resource : String) (r : Resource) :
    Option (Except Err Bool × State) :=
  let tk := alookup resource r.tickets
  if r.tickets.length > 1 ∨ (r.tickets.length = 1 ∧ tk = none) then
    some (.error .malformed, st)
  else
    match tk with
    | none =>
      let t := newTicket resource resource sess.id []
      let r' := { r with tickets := aupsert resource t r.tickets }
      let sess' := { sess with issuances := ticketAddOrUpdate sess.issuances (resource, resource) }
      -- the fresh ticket's issuer is this session, so the final
      -- `ticket.Issuer.Id == sess.Id` check succeeds
      some (.ok true, ⟨aupsert sessId sess' st.sessions, aupsert resource r' st.resources⟩)
    | some t =>
      match t.issuer with
      | none => none  -- `ticket.Issuer.Id` on a nil issuer: runtime panic
      | some iid =>
        if iid = sess.id then some (.ok true, st) else some (.ok false, st)

/-- `Lock` (ticket.go 551-592): create the resource as lockable if
absent, reject non-lock resources and malformed ticket sets, then take
or re-take the single lock ticket. -/
def lock (st : State) (sessId resource : String) : Option (Except Err Bool × State) :=
  match alookup sessId st.sessions with
  | none => some (.error .notFound, st)
  | some sess =>
    match alookup resource st.resources with
    | some r =>
      if r.isLock then lockWith st sess sessId resource r
      else some (.error .resourceType, st)
    | none =>
      let r := newResource resource true
      lockWith ⟨st.sessions, aupsert resource r st.resources⟩ sess sessId resource r

/-- `Unlock` (ticket.go 595-633).  On success the lock ticket's issuer is
nulled, the ticket deleted, and the issuance dropped; the returned
ticket is the detached record after the `Issuer = nil` mutation.
Returns `none` where the nil-issuer dereference panics. -/
def unlock (st : State) (sessId resource : String) : Option (Except Err Ticket × State) :=
  match alookup sessId st.sessions with
  | none => some (.error .notFound, st)
  | some sess =>
    match alookup resource st.resources with
    | none => some (.error .notFound, st)
    | some r =>
      if r.isLock then
        match alookup resource r.tickets with
        | none => some (.error .notFound, st)
        | some t =>
          match t.issuer with
          | none => none  -- `ticket.Issuer.Id` on a nil issuer: runtime panic
          | some iid =>
            if iid = sess.id then
              let t' := { t with issuer := none }
              let r' := { r with tickets := aerase t.name r.tickets }
              let sess' := { sess with issuances := ticketRemove sess.issuances (t.resourceName, t.name) }
              some (.ok t', ⟨aupsert sessId sess' st.sessions, aupsert resource r' st.resources⟩)
            else some (.error .notFound, st)  -- held by another session
      else some (.error .resourceType, st)

/-! ### Reachability

State-transition wrappers (the state after the operation; a `Lock` or
`Unlock` panic tears the writer down and `Start` restarts it, so the
panicking transitions are modelled as producing the writer's fresh empty
state) and the states reachable from the empty boot state.  The freshness
hypothesis on `openStep` models ksuid uniqueness. -/

def closeS (st : State) (id : String) : State := (closeSession st id).2

def refreshS (st : State) (id : String) (now : Nat) : State := (refreshSession st id now).2

def issueS (st : State) (sessId resource name : String) (data : List Nat) (now : Nat) : State :=
  (issueTicket st sessId resource name data now).2

def revokeS (st : State) (sessId resource name : String) : State :=
  (revokeTicket st sessId resource name).2

def claimS (st : State) (sessId resource : String) : State :=
  (claimTicket st sessId resource).2

def releaseS (st : State) (sessId resource name : String) : State :=
  (releaseTicket st sessId resource name).2

def lockS (st : State) (sessId resource : String) : State :=
  match lock st sessId resource with
  | none => State.empty
  | some (_, st') => st'

def unlockS (st : State) (sessId resource : String) : State :=
  match unlock st sessId resource with
  | none => State.empty
  | some (_, st') => st'

def expireS (st : State) (now : Nat) : State := expireSessions st now

/-- States the writer can be in, starting from the empty boot state. -/
inductive Reachable : State → Prop where
  | empty : Reachable State.empty
  | openStep {st : State} {id name src : String} {ttl now : Nat} :
      Reachable st → alookup id st.sessions = none →
      Reachable (openSession st id name src ttl now)
  | closeStep {st : State} {id : String} :
      Reachable st → Reachable (closeS st id)
  | refreshStep {st : State} {id : String} {now : Nat} :
      Reachable st → Reachable (refreshS st id now)
  | issueStep {st : State} {sessId resource name : String} {data : List Nat} {now : Nat} :
      Reachable st → Reachable (issueS st sessId resource name data now)
  | revokeStep {st : State} {sessId resource name : String} :
      Reachable st → Reachable (revokeS st sessId resource name)
  | claimStep {st : State} {sessId resource : String} :
      Reachable st → Reachable (claimS st sessId resource)
  | releaseStep {st : State} {sessId resource name : String} :
      Reachable st → Reachable (releaseS st sessId resource name)
  | lockStep {st : State} {sessId resource : String} :
      Reachable st → Reachable (lockS st sessId resource)
  | unlockStep {st : State} {sessId resource : String} :
      Reachable st → Reachable (unlockS st sessId resource)
  | expireStep {st : State} {now : Nat} :
      Reachable st → Reachable (expireS st now)

/-! ### Association-list lemmas -/

/-- Pairwise-distinct keys: the states Go's maps can actually represent. -/
abbrev nodupKeys {β : Type} (l : List (String × β)) : Prop :=
  l.Pairwise (fun a b => a.1 ≠ b.1)

theorem alookup_aupsert_self {β : Type} (k : String) (v : β) (l : List (String × β)) :
    alookup k (aupsert k v l) = some v := by
  induction l with
  | nil => simp [aupsert, alookup]
  | cons p t ih =>
    obtain ⟨k', v'⟩ := p
    by_cases h : k' = k
    · simp [aupsert, alookup, h]
    · simp [aupsert, alookup, h, ih]

theorem alookup_aupsert_ne {β : Type} {k' k : String} (h : k' ≠ k) (v : β)
    (l : List (String × β)) : alookup k' (aupsert k v l) = alookup k' l := by
  have hkk : k ≠ k' := fun hh => h hh.symm
  induction l with
  | nil => simp [aupsert, alookup, hkk]
  | cons p t ih =>
    obtain ⟨k0, v0⟩ := p
    by_cases h0 : k0 = k
    · subst h0
      simp [aupsert, alookup, hkk]
    · simp [aupsert, alookup, h0, ih]

theorem alookup_aerase_self {β : Type} (k : String) (l : List (String × β)) :
    alookup k (aerase k l) = none := by
  induction l with
  | nil => simp [aerase, alookup]
  | cons p t ih =>
    obtain ⟨k0, v0⟩ := p
    by_cases h0 : k0 = k
    · simp [aerase, h0, ih]
    · simp [aerase, alookup, h0, ih]

theorem alookup_aerase_ne {β : Type} {k' k : String} (h : k' ≠ k)
    (l : List (String × β)) : alookup k' (aerase k l) = alookup k' l := by
  have hkk : k ≠ k' := fun hh => h hh.symm
  induction l with
  | nil => simp [aerase]
  | cons p t ih =>
    obtain ⟨k0, v0⟩ := p
    by_cases h0 : k0 = k
    · subst h0
      simp [aerase, alookup, hkk, ih]
    · simp [aerase, alookup, h0, ih]

theorem alookup_mem {β : Type} {k : String} {v : β} {l : List (String × β)}
    (h : alookup k l = some v) : (k, v) ∈ l := by
  induction l with
  | nil => simp [alookup] at h
  | cons p t ih =>
    obtain ⟨k0, v0⟩ := p
    by_cases h0 : k0 = k
    · subst h0
      simp [alookup] at h
      subst h
      exact List.mem_cons_self _ _
    · simp [alookup, h0] at h
      exact List.mem_cons_of_mem _ (ih h)

theorem alookup_eq_none {β : Type} {k : String} {l : List (String × β)}
    (h : ∀ v, (k, v) ∉ l) : alookup k l = none := by
  induction l with
  | nil => simp [alookup]
  | cons p t ih =>
    obtain ⟨k0, v0⟩ := p
    by_cases h0 : k0 = k
    · subst h0
      exact absurd (List.mem_cons_self _ _) (h v0)
    · simp [alookup, h0]
      exact ih fun v hv => h v (List.mem_cons_of_mem _ hv)

theorem alookup_map_values {β γ : Type} (f : String → β → γ) (k : String)
    (l : List (String × β)) :
    alookup k (l.map fun p => (p.1, f p.1 p.2)) = (alookup k l).map (f k) := by
  induction l with
  | nil => simp [alookup]
  | cons p t ih =>
    obtain ⟨k0, v0⟩ := p
    by_cases h0 : k0 = k
    · subst h0
      simp [alookup]
    · simp [alookup, h0, ih]

/-- Lookup through a key-preserving filter, on a duplicate-free list. -/
theorem alookup_filter {β : Type} (p : String × β → Bool) {l : List (String × β)}
    (h : nodupKeys l) (k : String) :
    alookup k (l.filter p) =
      match alookup k l with
      | some v => if p (k, v) then some v else none
      | none => none := by
  induction l with
  | nil => simp [alookup]
  | cons q t ih =>
    obtain ⟨k0, v0⟩ := q
    have hnd : nodupKeys t := (List.pairwise_cons.mp h).2
    have hhd : ∀ b ∈ t, k0 ≠ b.1 := (List.pairwise_cons.mp h).1
    by_cases h0 : k0 = k
    · subst h0
      by_cases hp : p (k0, v0)
      · simp [List.filter, hp, alookup]
      · simp [List.filter, hp, alookup, ih hnd]
        have : ∀ v, (k0, v) ∉ t := by
          intro v hv
          exact (hhd (k0, v) hv) rfl
        simp [alookup_eq_none this]
    · by_cases hp : p (k0, v0)
      · simp [List.filter, hp, alookup, h0, ih hnd]
      · simp [List.filter, hp, alookup, h0, ih hnd]

theorem mem_aupsert {β : Type} {b : String × β} {k : String} {v : β}
    {l : List (String × β)} (h : b ∈ aupsert k v l) :
    b = (k, v) ∨ b ∈ l := by
  induction l with
  | nil =>
    simp [aupsert] at h
    exact Or.inl h
  | cons p t ih =>
    obtain ⟨k0, v0⟩ := p
    by_cases h0 : k0 = k
    · subst h0
      simp [aupsert] at h
      rcases h with h | h
      · exact Or.inl (by simp [h])
      · exact Or.inr (List.mem_cons_of_mem _ h)
    · simp [aupsert, h0] at h
      rcases h with h | h
      · exact Or.inr (by simp [h])
      · rcases ih h with h' | h'
        · exact Or.inl h'
        · exact Or.inr (List.mem_cons_of_mem _ h')

theorem nodupKeys_aupsert {β : Type} {l : List (String × β)} (k : String) (v : β)
    (h : nodupKeys l) : nodupKeys (aupsert k v l) := by
  induction l with
  | nil => simp [aupsert, nodupKeys]
  | cons p t ih =>
    obtain ⟨k0, v0⟩ := p
    obtain ⟨hhd, hnd⟩ := List.pairwise_cons.mp h
    by_cases h0 : k0 = k
    · subst h0
      simp only [aupsert, if_pos rfl]
      exact List.pairwise_cons.mpr ⟨hhd, hnd⟩
    · simp only [aupsert, if_neg h0]
      refine List.pairwise_cons.mpr ⟨?_, ih hnd⟩
      intro b hb
      rcases mem_aupsert hb with h' | h'
      · subst h'; exact h0
      · exact hhd _ h'

theorem nodupKeys_sublist {β : Type} {l l' : List (String × β)}
    (hs : l'.Sublist l) (h : nodupKeys l) : nodupKeys l' :=
  List.Pairwise.sublist hs h

theorem aerase_sublist {β : Type} (k : String) (l : List (String × β)) :
    (aerase k l).Sublist l := by
  induction l with
  | nil => simp [aerase]
  | cons p t ih =>
    obtain ⟨k0, v0⟩ := p
    by_cases h0 : k0 = k
    · simpa [aerase, h0] using ih.cons (k0, v0)
    · simpa [aerase, h0] using ih.cons₂ (k0, v0)

theorem nodupKeys_aerase {β : Type} (k : String) {l : List (String × β)}
    (h : nodupKeys l) : nodupKeys (aerase k l) :=
  nodupKeys_sublist (aerase_sublist k l) h

theorem alookup_updTicketIn (tn : String) (f : Ticket → Ticket) (k : String)
    (l : List (String × Ticket)) :
    alookup k (updTicketIn tn f l) =
      if k = tn then (alookup k l).map f else alookup k l := by
  induction l with
  | nil => by_cases h : k = tn <;> simp [updTicketIn, alookup, h]
  | cons p t ih =>
    obtain ⟨k0, t0⟩ := p
    by_cases h0 : k0 = tn
    · subst h0
      by_cases hk : k0 = k
      · subst hk
        simp [updTicketIn, alookup]
      · have : ¬ k = k0 := fun hh => hk hh.symm
        simp [updTicketIn, alookup, hk, this]
    · by_cases hk : k0 = k
      · subst hk
        have : ¬ k0 = tn := h0
        simp [updTicketIn, alookup, h0, if_neg this]
      · simp [updTicketIn, alookup, h0, hk, ih]

theorem alookup_updTicket (key : TKey) (f : Ticket → Ticket) (rn : String)
    (res : Resources) :
    alookup rn (updTicket key f res) =
      if rn = key.1 then
        (alookup rn res).map fun r => { r with tickets := updTicketIn key.2 f r.tickets }
      else alookup rn res := by
  induction res with
  | nil => by_cases h : rn = key.1 <;> simp [updTicket, alookup, h]
  | cons p t ih =>
    obtain ⟨k0, r0⟩ := p
    by_cases h0 : k0 = key.1
    · by_cases hk : k0 = rn
      · have h2 : rn = key.1 := hk ▸ h0
        simp [updTicket, alookup, h0, hk, h2]
      · have h2 : ¬ rn = k0 := fun hh => hk hh.symm
        have h3 : ¬ (key.1 : String) = rn := h0 ▸ hk
        have h4 : ¬ rn = key.1 := fun hh => h3 hh.symm
        simp [updTicket, alookup, h0, hk, h2, h3, h4, ih]
    · by_cases hk : k0 = rn
      · have h2 : ¬ rn = key.1 := fun hh => h0 (hk.symm ▸ hh)
        simp [updTicket, alookup, h0, hk, h2]
      · simp [updTicket, alookup, h0, hk, ih]

theorem fetch_updTicket (k key : TKey) (f : Ticket → Ticket) (res : Resources) :
    fetchTicketPtr k (updTicket key f res) =
      if k = key then (fetchTicketPtr k res).map f else fetchTicketPtr k res := by
  unfold fetchTicketPtr
  rw [alookup_updTicket]
  by_cases h1 : k.1 = key.1
  · rw [if_pos h1]
    by_cases h2 : k.2 = key.2
    · have hk : k = key := Prod.ext h1 h2
      rw [if_pos hk]
      cases halo : alookup k.1 res with
      | none => simp
      | some r =>
        simp [alookup_updTicketIn, h2]
    · have hk : ¬ k = key := fun hh => h2 (by rw [hh])
      rw [if_neg hk]
      cases halo : alookup k.1 res with
      | none => simp
      | some r =>
        simp [alookup_updTicketIn, h2]
  · have hk : ¬ k = key := fun hh => h1 (by rw [hh])
    rw [if_neg h1, if_neg hk]

theorem mem_ticketAddOrUpdate (l : List TKey) (k k' : TKey) :
    k' ∈ ticketAddOrUpdate l k ↔ (k' ∈ l ∨ k' = k) := by
  unfold ticketAddOrUpdate
  by_cases h : k ∈ l
  · simp only [if_pos h]
    constructor
    · exact Or.inl
    · rintro (h' | h')
      · exact h'
      · exact h' ▸ h
  · simp [if_neg h]

theorem getLast?_mem {α : Type} {l : List α} {a : α} (h : l.getLast? = some a) :
    a ∈ l := by
  induction l with
  | nil => simp at h
  | cons x xs ih =>
    cases xs with
    | nil =>
      simp [List.getLast?] at h
      simp [h]
    | cons y ys =>
      rw [List.getLast?_cons_cons] at h
      exact List.mem_cons_of_mem _ (ih h)

theorem mem_ticketRemove {l : List TKey} {k x : TKey} (h : x ∈ ticketRemove l k) :
    x ∈ l := by
  induction l with
  | nil => simp [ticketRemove] at h
  | cons y ys ih =>
    by_cases h0 : y = k
    · simp only [ticketRemove, if_pos h0] at h
      cases hl : ys.getLast? with
      | none => rw [hl] at h; simp at h
      | some last =>
        rw [hl] at h
        rcases List.mem_cons.mp h with h' | h'
        · exact List.mem_cons_of_mem _ (h' ▸ getLast?_mem hl)
        · exact List.mem_cons_of_mem _ ((List.dropLast_sublist ys).mem h')
    · simp only [ticketRemove, if_neg h0] at h
      rcases List.mem_cons.mp h with h' | h'
      · exact h' ▸ List.mem_cons_self _ _
      · exact List.mem_cons_of_mem _ (ih h')

theorem mem_ticketRemove_of_ne {l : List TKey} {k x : TKey} (hx : x ≠ k)
    (h : x ∈ l) : x ∈ ticketRemove l k := by
  induction l with
  | nil => simp at h
  | cons y ys ih =>
    by_cases h0 : y = k
    · subst h0
      rcases List.mem_cons.mp h with h' | h'
      · exact absurd h' hx
      · simp only [ticketRemove, if_pos rfl]
        cases hys : ys with
        | nil => subst hys; simp at h'
        | cons z zs =>
          subst hys
          have hne : (z :: zs) ≠ [] := by simp
          cases hl : (z :: zs).getLast? with
          | none =>
            have hsome : (z :: zs).getLast?.isSome := by
              rw [List.getLast?_isSome]
              exact hne
            rw [hl] at hsome
            simp at hsome
          | some last =>
            have hlast : (z :: zs).getLast hne = last := by
              have h3 := List.getLast?_eq_getLast (z :: zs) hne
              rw [hl] at h3
              exact (Option.some.inj h3).symm
            have hsplit : (z :: zs).dropLast ++ [last] = z :: zs := by
              rw [← hlast]
              exact List.dropLast_append_getLast hne
            rw [← hsplit] at h'
            rcases List.mem_append.mp h' with hm | hm
            · exact List.mem_cons_of_mem _ hm
            · simp at hm
              exact hm ▸ List.mem_cons_self _ _
    · simp only [ticketRemove, if_neg h0]
      rcases List.mem_cons.mp h with h' | h'
      · exact h' ▸ List.mem_cons_self _ _
      · exact List.mem_cons_of_mem _ (ih h')

theorem not_mem_ticketRemove {l : List TKey} {k : TKey}
    (h : l.count k ≤ 1) : k ∉ ticketRemove l k := by
  induction l with
  | nil => simp [ticketRemove]
  | cons y ys ih =>
    by_cases h0 : y = k
    · subst h0
      have hcnt : ys.count y = 0 := by
        rw [List.count_cons_self] at h
        omega
      have hnot : y ∉ ys := by
        rw [← List.count_pos_iff]
        omega
      simp only [ticketRemove, if_pos rfl]
      cases hl : ys.getLast? with
      | none => simp
      | some last =>
        intro hmem
        rcases List.mem_cons.mp hmem with h' | h'
        · exact hnot (h' ▸ getLast?_mem hl)
        · exact hnot ((List.dropLast_sublist ys).mem h')
    · simp only [ticketRemove, if_neg h0]
      intro hmem
      rcases List.mem_cons.mp hmem with h' | h'
      · exact h0 h'.symm
      · have hky : ¬ k = y := fun hh => h0 hh.symm
        have hcnt : ys.count k ≤ 1 := by
          rw [List.count_cons] at h
          simp [h0] at h
          exact h
        exact ih hcnt h'

/-! ### claimScan lemmas -/

theorem claimScan_eq_none {sid : String} {l : List (String × Ticket)} :
    claimScan sid l = none ↔ ∀ p ∈ l, ¬ isCandidate sid p.2 := by
  induction l with
  | nil => simp [claimScan]
  | cons p t ih =>
    obtain ⟨tn, tk⟩ := p
    by_cases hc : isCandidate sid tk
    · simp only [claimScan, if_pos hc]
      constructor
      · intro h; exact absurd h (by simp)
      · intro h
        exact absurd hc (h (tn, tk) (List.mem_cons_self _ _))
    · simp only [claimScan, if_neg hc, Option.map_eq_none']
      rw [ih]
      constructor
      · intro h q hq
        rcases List.mem_cons.mp hq with h' | h'
        · rw [h']; exact hc
        · exact h q h'
      · intro h q hq
        exact h q (List.mem_cons_of_mem _ hq)

theorem claimScan_eq_some {sid : String} {l : List (String × Ticket)}
    {ft : Ticket} {l' : List (String × Ticket)}
    (h : claimScan sid l = some (ft, l')) :
    ∃ l1 tn t l2,
      l = l1 ++ (tn, t) :: l2 ∧ (∀ p ∈ l1, ¬ isCandidate sid p.2) ∧
      isCandidate sid t ∧ ft = { t with claimant := some sid } ∧
      l' = l1 ++ (tn, ft) :: l2 := by
  induction l generalizing ft l' with
  | nil => simp [claimScan] at h
  | cons p rest ih =>
    obtain ⟨tn0, t0⟩ := p
    by_cases hc : isCandidate sid t0
    · simp only [claimScan, if_pos hc, Option.some.injEq, Prod.mk.injEq] at h
      obtain ⟨h1, h2⟩ := h
      refine ⟨[], tn0, t0, rest, by simp, by simp, hc, h1.symm, ?_⟩
      rw [← h2, h1]
      simp
    · simp only [claimScan, if_neg hc, Option.map_eq_some'] at h
      obtain ⟨⟨ft0, rest0⟩, hscan, heq⟩ := h
      simp only [Prod.mk.injEq] at heq
      obtain ⟨hft, hl'⟩ := heq
      obtain ⟨l1, tn, t, l2, hl, hnone, hcand, hft0, hl0⟩ := ih hscan
      refine ⟨(tn0, t0) :: l1, tn, t, l2, by rw [hl]; simp, ?_, hcand, by rw [← hft, hft0], ?_⟩
      · intro q hq
        rcases List.mem_cons.mp hq with h' | h'
        · rw [h']; exact hc
        · exact hnone q h'
      · rw [← hl', hl0, ← hft]
        simp

/-- First-position lookup inside a decomposed list. -/
theorem alookup_of_decomp {β : Type} {l1 l2 : List (String × β)} {tn : String}
    {v : β} (hfst : ∀ p ∈ l1, p.1 ≠ tn) :
    alookup tn (l1 ++ (tn, v) :: l2) = some v := by
  induction l1 with
  | nil => simp [alookup]
  | cons q l1' ih =>
    obtain ⟨k0, v0⟩ := q
    have h0 : k0 ≠ tn := hfst (k0, v0) (List.mem_cons_self _ _)
    simp only [List.cons_append, alookup, if_neg h0]
    exact ih fun p hp => hfst p (List.mem_cons_of_mem _ hp)

theorem nodupKeys_decomp_left {β : Type} {l1 l2 : List (String × β)} {tn : String}
    {v : β} (h : nodupKeys (l1 ++ (tn, v) :: l2)) : ∀ p ∈ l1, p.1 ≠ tn := by
  intro p hp
  have := (List.pairwise_append.mp h).2.2
  exact this p hp (tn, v) (List.mem_cons_self _ _)

/-! ### C1: ClaimTicket -/

/-- The behaviour claimed for `ClaimTicket(sessId, r)` in a state where
the session exists: a missing resource gives `(false, nil)` with no
error; on a non-lock resource, if no candidate ticket exists the result
is `(false, nil)` with no error, and if one exists some candidate is
claimed, recorded in the session, and returned as a copy. -/
def ClaimOutcome (st : State) (sessId rname : String) (sess : Session) : Prop :=
  (alookup rname st.resources = none →
    claimTicket st sessId rname = (Except.ok (false, none), st)) ∧
  ∀ r, alookup rname st.resources = some r → r.isLock = false →
    ((∀ p ∈ r.tickets, ¬ isCandidate sess.id p.2) →
      claimTicket st sessId rname = (Except.ok (false, none), st)) ∧
    (nodupKeys r.tickets → (∃ p ∈ r.tickets, isCandidate sess.id p.2) →
      ∃ tn t st',
        alookup tn r.tickets = some t ∧ isCandidate sess.id t ∧
        claimTicket st sessId rname
          = (Except.ok (true, some { t with claimant := some sess.id }), st') ∧
        fetchTicketPtr (rname, tn) st'.resources
          = some { t with claimant := some sess.id } ∧
        ∃ sess', alookup sessId st'.sessions = some sess' ∧
          (t.resourceName, t.name) ∈ sess'.tickets ∧
          ∀ k, k ∈ sess'.tickets ↔ (k ∈ sess.tickets ∨ k = (t.resourceName, t.name)))

/-- C1.  `ClaimTicket` on an existing session: missing resource or no
candidate gives `(false, nil)` with no error and an unchanged state;
otherwise some ticket with a live issuer and a free (or own) claimant is
claimed, the claim is recorded in the session's claimed sequence by
`(resource_name, name)` identity, and a copy is returned. -/
theorem c1_claim_ticket (st : State) (sessId rname : String) (sess : Session)
    (hs : alookup sessId st.sessions = some sess) :
    ClaimOutcome st sessId rname sess := by
  constructor
  · intro h
    simp [claimTicket, hs, h]
  · intro r hr hl
    constructor
    · intro hnone
      have hscan : claimScan sess.id r.tickets = none := claimScan_eq_none.mpr hnone
      simp [claimTicket, hs, hr, hl, hscan]
    · intro hnd hex
      cases hscan : claimScan sess.id r.tickets with
      | none =>
        obtain ⟨p, hp, hc⟩ := hex
        exact absurd hc (claimScan_eq_none.mp hscan p hp)
      | some pr =>
        obtain ⟨ft, tickets'⟩ := pr
        obtain ⟨l1, tn, t, l2, hl12, hnone1, hcand, hft, hl'⟩ := claimScan_eq_some hscan
        have hfst : ∀ p ∈ l1, p.1 ≠ tn := nodupKeys_decomp_left (hl12 ▸ hnd)
        have hlook : alookup tn r.tickets = some t := by
          rw [hl12]; exact alookup_of_decomp hfst
        have hlook' : alookup tn tickets' = some ft := by
          rw [hl']; exact alookup_of_decomp hfst
        refine ⟨tn, t,
          ⟨aupsert sessId
              { sess with tickets := ticketAddOrUpdate sess.tickets (ft.resourceName, ft.name) }
              st.sessions,
            aupsert rname { r with tickets := tickets' } st.resources⟩,
          hlook, hcand, ?_, ?_, ?_⟩
        · simp only [claimTicket, hs, hr, hl, hscan]
          rw [hft]
          simp
        · unfold fetchTicketPtr
          simp only [alookup_aupsert_self]
          rw [hlook', hft]
        · refine ⟨_, alookup_aupsert_self _ _ _, ?_, ?_⟩
          · simp only [hft]
            exact (mem_ticketAddOrUpdate _ _ _).mpr (Or.inr rfl)
          · intro k
            simp only [hft]
            exact mem_ticketAddOrUpdate _ _ _

def wSess1 : Session := ⟨"w", "s1", "a", 5, [], [], 5⟩
def wTick1 : Ticket := ⟨"foo", "r", [1], some "s1", none⟩
def wSt1 : State := ⟨[("s1", wSess1)], [("r", ⟨"r", false, [("foo", wTick1)]⟩)]⟩

/-- Witness for C1 at a concrete one-session, one-ticket state. -/
theorem c1_claim_ticket_witness : ClaimOutcome wSt1 "s1" "r" wSess1 :=
  c1_claim_ticket wSt1 "s1" "r" wSess1 (by decide)

/-! ### C2: IssueTicket over an existing ticket (takeover) -/

/-- The claimed takeover behaviour of `IssueTicket` when a ticket of the
same name already exists: the displaced old ticket has its issuer
nulled, the fresh ticket (issuer = the session, claimant carried over)
replaces it in the resource, the issuance is recorded by
`(resource_name, name)` identity, and the session deadline is refreshed. -/
def IssueTakeover (st : State) (sessId rname tname : String) (data : List Nat)
    (now : Nat) (sess : Session) (old : Ticket) : Prop :=
  ∃ st',
    issueTicket st sessId rname tname data now
      = (Except.ok (some { old with issuer := none }), st') ∧
    fetchTicketPtr (rname, tname) st'.resources
      = some { name := tname, resourceName := rname, data := data,
               issuer := some sess.id, claimant := old.claimant } ∧
    ∃ sess', alookup sessId st'.sessions = some sess' ∧
      sess'.expires = now + sess.ttl ∧
      (rname, tname) ∈ sess'.issuances ∧
      ∀ k, k ∈ sess'.issuances ↔ (k ∈ sess.issuances ∨ k = (rname, tname))

/-- C2.  Re-issuing an existing ticket on a live session and a non-lock
resource nulls the old ticket's issuer, installs the replacement with
the old claimant carried over, updates the issuance list by identity,
and refreshes the session's deadline to `now + ttl`. -/
theorem c2_issue_takeover (st : State) (sessId rname tname : String)
    (data : List Nat) (now : Nat) (sess : Session) (r : Resource) (old : Ticket)
    (hs : alookup sessId st.sessions = some sess)
    (hr : alookup rname st.resources = some r)
    (hl : r.isLock = false)
    (hold : alookup tname r.tickets = some old) :
    IssueTakeover st sessId rname tname data now sess old := by
  refine ⟨⟨aupsert sessId
      { sess with expires := now + sess.ttl,
                  issuances := ticketAddOrUpdate sess.issuances (rname, tname) }
      (aupsert sessId { sess with expires := now + sess.ttl } st.sessions),
    aupsert rname
      { r with tickets := aupsert tname (Ticket.mk tname rname data (some sess.id) old.claimant) r.tickets }
      st.resources⟩, ?_, ?_, ?_⟩
  · simp only [issueTicket, hs, hr, hl, issuePerform, newTicket, hold]
    simp
  · unfold fetchTicketPtr
    simp only [alookup_aupsert_self]
  · refine ⟨_, alookup_aupsert_self _ _ _, rfl, ?_, ?_⟩
    · exact (mem_ticketAddOrUpdate _ _ _).mpr (Or.inr rfl)
    · intro k
      exact mem_ticketAddOrUpdate _ _ _

def wSess2 : Session := ⟨"w", "s1", "a", 7, [], [("q", "z")], 3⟩
def wOld2 : Ticket := ⟨"foo", "r", [9], some "s0", some "c0"⟩
def wSt2 : State := ⟨[("s1", wSess2)], [("r", ⟨"r", false, [("foo", wOld2)]⟩)]⟩

/-- Witness for C2: a takeover of a ticket issued by another session and
claimed by a third, at a concrete state. -/
theorem c2_issue_takeover_witness : IssueTakeover wSt2 "s1" "r" "foo" [4] 100 wSess2 wOld2 :=
  c2_issue_takeover wSt2 "s1" "r" "foo" [4] 100 wSess2 ⟨"r", false, [("foo", wOld2)]⟩ wOld2
    (by decide) (by decide) (by decide) (by decide)

/-! ### C5: Lock -/

/-- Outcome of a `Lock` call that creates the lock ticket: registered in
the (lockable) resource under the resource's name, issuer = the session,
claimant = nil, recorded in the session's issuance list, `ok = true`. -/
def CreatedLock (st : State) (sessId rname : String) (sess : Session) : Prop :=
  ∃ st', lock st sessId rname = some (Except.ok true, st') ∧
    fetchTicketPtr (rname, rname) st'.resources = some (newTicket rname rname sess.id []) ∧
    (∃ r', alookup rname st'.resources = some r' ∧ r'.isLock = true) ∧
    ∃ sess', alookup sessId st'.sessions = some sess' ∧
      (rname, rname) ∈ sess'.issuances ∧
      ∀ k, k ∈ sess'.issuances ↔ (k ∈ sess.issuances ∨ k = (rname, rname))

/-- The behaviour claimed for `Lock(sessId, r)` on a live session when
the resource is absent, or lockable with a well-formed ticket set. -/
def LockOutcome (st : State) (sessId rname : String) (sess : Session) : Prop :=
  (alookup rname st.resources = none → CreatedLock st sessId rname sess) ∧
  ∀ r, alookup rname st.resources = some r → r.isLock = true →
    (r.tickets = [] → CreatedLock st sessId rname sess) ∧
    ∀ t, r.tickets = [(rname, t)] → ∀ i, t.issuer = some i →
      (i = sess.id → lock st sessId rname = some (Except.ok true, st)) ∧
      (i ≠ sess.id → lock st sessId rname = some (Except.ok false, st))

/-- C5.  `Lock` on a live session: creates and registers the lock ticket
and returns `ok = true` when no ticket is present (resource absent or
empty); succeeds idempotently without touching the state when this
session already holds the lock; returns `ok = false` with no error when
another session holds it. -/
theorem c5_lock (st : State) (sessId rname : String) (sess : Session)
    (hs : alookup sessId st.sessions = some sess) :
    LockOutcome st sessId rname sess := by
  constructor
  · intro h
    refine ⟨⟨aupsert sessId
        { sess with issuances := ticketAddOrUpdate sess.issuances (rname, rname) } st.sessions,
      aupsert rname
        { name := rname, isLock := true, tickets := aupsert rname (newTicket rname rname sess.id []) [] }
        (aupsert rname (newResource rname true) st.resources)⟩, ?_, ?_, ?_, ?_⟩
    · simp [lock, hs, h, lockWith, newResource, alookup]
    · unfold fetchTicketPtr
      simp only [alookup_aupsert_self]
    · exact ⟨_, alookup_aupsert_self _ _ _, rfl⟩
    · refine ⟨_, alookup_aupsert_self _ _ _, ?_, ?_⟩
      · exact (mem_ticketAddOrUpdate _ _ _).mpr (Or.inr rfl)
      · intro k
        exact mem_ticketAddOrUpdate _ _ _
  · intro r hr hl
    constructor
    · intro hemp
      refine ⟨⟨aupsert sessId
          { sess with issuances := ticketAddOrUpdate sess.issuances (rname, rname) } st.sessions,
        aupsert rname { r with tickets := aupsert rname (newTicket rname rname sess.id []) r.tickets }
          st.resources⟩, ?_, ?_, ?_, ?_⟩
      · simp [lock, hs, hr, hl, lockWith, hemp, alookup]
      · unfold fetchTicketPtr
        simp only [alookup_aupsert_self, hemp]
      · exact ⟨_, alookup_aupsert_self _ _ _, by simp [hl]⟩
      · refine ⟨_, alookup_aupsert_self _ _ _, ?_, ?_⟩
        · exact (mem_ticketAddOrUpdate _ _ _).mpr (Or.inr rfl)
        · intro k
          exact mem_ticketAddOrUpdate _ _ _
    · intro t htk i hi
      constructor
      · intro heq
        simp [lock, hs, hr, hl, lockWith, htk, alookup, hi, heq]
      · intro hne
        simp [lock, hs, hr, hl, lockWith, htk, alookup, hi, hne]

def wSess5 : Session := ⟨"w", "s1", "a", 5, [], [], 5⟩
def wSt5 : State := ⟨[("s1", wSess5)], []⟩

/-- Witness for C5 at a concrete state with one session and no resources. -/
theorem c5_lock_witness : LockOutcome wSt5 "s1" "L" wSess5 :=
  c5_lock wSt5 "s1" "L" wSess5 (by decide)

/-! ### C6: Unlock -/

/-- Outcome of a successful `Unlock`: the detached ticket comes back with
its issuer cleared, the ticket is gone from the resource, and the
back-reference is dropped from the session's issuance list. -/
def UnlockSuccess (st : State) (sessId rname : String) (sess : Session) (t : Ticket) : Prop :=
  ∃ st', unlock st sessId rname = some (Except.ok { t with issuer := none }, st') ∧
    fetchTicketPtr (rname, t.name) st'.resources = none ∧
    ∃ sess', alookup sessId st'.sessions = some sess' ∧
      (sess.issuances.count (t.resourceName, t.name) ≤ 1 →
        (t.resourceName, t.name) ∉ sess'.issuances)

/-- C6 exactly as claimed: `Unlock` fails `NotFound` on a missing
session, resource or lock ticket, `WrongResourceType` on a non-lock
resource, `NotFound` (NotHolder) whenever the lock ticket's issuer id
differs from the session's, and in every remaining case clears the
issuer, deletes the ticket and drops the issuance. -/
def C6UnlockClaim (st : State) (sessId rname : String) : Prop :=
  (alookup sessId st.sessions = none →
    unlock st sessId rname = some (Except.error Err.notFound, st)) ∧
  ∀ sess, alookup sessId st.sessions = some sess →
    (alookup rname st.resources = none →
      unlock st sessId rname = some (Except.error Err.notFound, st)) ∧
    ∀ r, alookup rname st.resources = some r →
      (r.isLock = false →
        unlock st sessId rname = some (Except.error Err.resourceType, st)) ∧
      (r.isLock = true →
        (alookup rname r.tickets = none →
          unlock st sessId rname = some (Except.error Err.notFound, st)) ∧
        ∀ t, alookup rname r.tickets = some t →
          (t.issuer ≠ some sess.id →
            unlock st sessId rname = some (Except.error Err.notFound, st)) ∧
          (t.issuer = some sess.id → UnlockSuccess st sessId rname sess t))

def badSess6 : Session := ⟨"w", "s2", "a", 5, [], [], 5⟩
def badTick6 : Ticket := ⟨"L", "L", [], none, none⟩
def badSt6 : State := ⟨[("s2", badSess6)], [("L", ⟨"L", true, [("L", badTick6)]⟩)]⟩

/-- Counterexample to C6 as stated: in the state where the lock ticket's
issuer has been nulled (the holder's session was closed and the sweep
has not yet run), its issuer differs from the calling session's id, yet
`Unlock` does not return the claimed `NotFound` error — it dereferences
the nil issuer and panics. -/
theorem c6_unlock_counterexample : ¬ C6UnlockClaim badSt6 "s2" "L" := by
  intro h
  have h2 := (((h.2 badSess6 (by decide)).2 ⟨"L", true, [("L", badTick6)]⟩
    (by decide)).2 rfl).2 badTick6 (by decide)
  have h3 := h2.1 (by decide)
  have h4 : unlock badSt6 "s2" "L" = none := by
    simp [unlock, badSt6, badSess6, badTick6, alookup]
  rw [h4] at h3
  cases h3

/-- C6 as amended: the NotHolder case is restricted to a non-nil issuer
with a different id; a present lock ticket whose issuer is nil makes
`Unlock` dereference a nil pointer and panic instead. -/
def C6UnlockAmended (st : State) (sessId rname : String) : Prop :=
  (alookup sessId st.sessions = none →
    unlock st sessId rname = some (Except.error Err.notFound, st)) ∧
  ∀ sess, alookup sessId st.sessions = some sess →
    (alookup rname st.resources = none →
      unlock st sessId rname = some (Except.error Err.notFound, st)) ∧
    ∀ r, alookup rname st.resources = some r →
      (r.isLock = false →
        unlock st sessId rname = some (Except.error Err.resourceType, st)) ∧
      (r.isLock = true →
        (alookup rname r.tickets = none →
          unlock st sessId rname = some (Except.error Err.notFound, st)) ∧
        ∀ t, alookup rname r.tickets = some t →
          (∀ i, t.issuer = some i → i ≠ sess.id →
            unlock st sessId rname = some (Except.error Err.notFound, st)) ∧
          (t.issuer = none → unlock st sessId rname = none) ∧
          (t.issuer = some sess.id → UnlockSuccess st sessId rname sess t))

/-- C6 amended and proved: `Unlock` error and success cases as claimed,
with the NotHolder case requiring a non-nil issuer; a nil issuer panics. -/
theorem c6_unlock_amended (st : State) (sessId rname : String) :
    C6UnlockAmended st sessId rname := by
  constructor
  · intro h
    simp [unlock, h]
  · intro sess hs
    constructor
    · intro h
      simp [unlock, hs, h]
    · intro r hr
      constructor
      · intro hl
        simp [unlock, hs, hr, hl]
      · intro hl
        constructor
        · intro h
          simp [unlock, hs, hr, hl, h]
        · intro t ht
          refine ⟨?_, ?_, ?_⟩
          · intro i hi hne
            simp [unlock, hs, hr, hl, ht, hi, hne]
          · intro hi
            simp [unlock, hs, hr, hl, ht, hi]
          · intro hi
            refine ⟨⟨aupsert sessId
                { sess with issuances := ticketRemove sess.issuances (t.resourceName, t.name) }
                st.sessions,
              aupsert rname { r with tickets := aerase t.name r.tickets } st.resources⟩,
              ?_, ?_, ?_⟩
            · simp [unlock, hs, hr, hl, ht, hi]
            · unfold fetchTicketPtr
              simp only [alookup_aupsert_self]
              exact alookup_aerase_self _ _
            · refine ⟨_, alookup_aupsert_self _ _ _, ?_⟩
              intro hcnt
              exact not_mem_ticketRemove hcnt

/-- Witness for the amended C6 at the concrete nil-issuer state. -/
theorem c6_unlock_amended_witness : C6UnlockAmended badSt6 "s2" "L" :=
  c6_unlock_amended badSt6 "s2" "L"

/-! ### Shape lemmas for clearClaims and the sweep -/

/-- `clearClaims`-style passes only null claimant or issuer fields; every
other field of a ticket is untouched. -/
def WeakerT (t t' : Ticket) : Prop :=
  t'.name = t.name ∧ t'.resourceName = t.resourceName ∧ t'.data = t.data ∧
  (t'.issuer = t.issuer ∨ t'.issuer = none) ∧
  (t'.claimant = t.claimant ∨ t'.claimant = none)

theorem weakerT_refl (t : Ticket) : WeakerT t t :=
  ⟨rfl, rfl, rfl, Or.inl rfl, Or.inl rfl⟩

theorem weakerT_trans {a b c : Ticket} (h1 : WeakerT a b) (h2 : WeakerT b c) :
    WeakerT a c := by
  obtain ⟨n1, r1, d1, i1, c1⟩ := h1
  obtain ⟨n2, r2, d2, i2, c2⟩ := h2
  refine ⟨n2.trans n1, r2.trans r1, d2.trans d1, ?_, ?_⟩
  · rcases i2 with h | h
    · rw [h]; exact i1
    · exact Or.inr h
  · rcases c2 with h | h
    · rw [h]; exact c1
    · exact Or.inr h

theorem clearClaimStep_of_none {sid : String} {k0 : TKey} {res : Resources}
    (hf : fetchTicketPtr k0 res = none) : clearClaimStep sid k0 res = res := by
  unfold clearClaimStep
  rw [hf]

theorem clearClaimStep_of_some {sid : String} {k0 : TKey} {res : Resources}
    {t0 : Ticket} (hf : fetchTicketPtr k0 res = some t0) :
    clearClaimStep sid k0 res =
      if t0.claimant = some sid then
        updTicket k0 (fun u => { u with claimant := none }) res
      else res := by
  unfold clearClaimStep
  rw [hf]

theorem clearIssueStep_of_none {sid : String} {k0 : TKey} {res : Resources}
    (hf : fetchTicketPtr k0 res = none) : clearIssueStep sid k0 res = res := by
  unfold clearIssueStep
  rw [hf]

theorem clearIssueStep_of_some {sid : String} {k0 : TKey} {res : Resources}
    {t0 : Ticket} (hf : fetchTicketPtr k0 res = some t0) :
    clearIssueStep sid k0 res =
      if t0.issuer = some sid then
        updTicket k0 (fun u => { u with issuer := none }) res
      else res := by
  unfold clearIssueStep
  rw [hf]

/-- The claimant-clearing step only ever nulls the claimant at `k`. -/
theorem fetch_clearClaimStep_weaker {sid : String} {k k0 : TKey} {res : Resources}
    {t' : Ticket} (h : fetchTicketPtr k (clearClaimStep sid k0 res) = some t') :
    ∃ t, fetchTicketPtr k res = some t ∧ WeakerT t t' := by
  cases hf : fetchTicketPtr k0 res with
  | none =>
    rw [clearClaimStep_of_none hf] at h
    exact ⟨t', h, weakerT_refl t'⟩
  | some t0 =>
    rw [clearClaimStep_of_some hf] at h
    by_cases hc : t0.claimant = some sid
    · rw [if_pos hc, fetch_updTicket] at h
      by_cases hk : k = k0
      · rw [if_pos hk] at h
        cases hfk : fetchTicketPtr k res with
        | none => rw [hfk] at h; cases h
        | some tt =>
          rw [hfk] at h
          simp only [Option.map_some', Option.some.injEq] at h
          exact ⟨tt, rfl, by rw [← h]; exact ⟨rfl, rfl, rfl, Or.inl rfl, Or.inr rfl⟩⟩
      · rw [if_neg hk] at h
        exact ⟨t', h, weakerT_refl t'⟩
    · rw [if_neg hc] at h
      exact ⟨t', h, weakerT_refl t'⟩

/-- The issuer-clearing step only ever nulls the issuer at `k`. -/
theorem fetch_clearIssueStep_weaker {sid : String} {k k0 : TKey} {res : Resources}
    {t' : Ticket} (h : fetchTicketPtr k (clearIssueStep sid k0 res) = some t') :
    ∃ t, fetchTicketPtr k res = some t ∧ WeakerT t t' := by
  cases hf : fetchTicketPtr k0 res with
  | none =>
    rw [clearIssueStep_of_none hf] at h
    exact ⟨t', h, weakerT_refl t'⟩
  | some t0 =>
    rw [clearIssueStep_of_some hf] at h
    by_cases hc : t0.issuer = some sid
    · rw [if_pos hc, fetch_updTicket] at h
      by_cases hk : k = k0
      · rw [if_pos hk] at h
        cases hfk : fetchTicketPtr k res with
        | none => rw [hfk] at h; cases h
        | some tt =>
          rw [hfk] at h
          simp only [Option.map_some', Option.some.injEq] at h
          exact ⟨tt, rfl, by rw [← h]; exact ⟨rfl, rfl, rfl, Or.inr rfl, Or.inl rfl⟩⟩
      · rw [if_neg hk] at h
        exact ⟨t', h, weakerT_refl t'⟩
    · rw [if_neg hc] at h
      exact ⟨t', h, weakerT_refl t'⟩

theorem fetch_clearClaimed_weaker {sid : String} {k : TKey} :
    ∀ (ks : List TKey) (res : Resources) {t' : Ticket},
    fetchTicketPtr k (clearClaimed sid ks res) = some t' →
    ∃ t, fetchTicketPtr k res = some t ∧ WeakerT t t' := by
  intro ks
  induction ks with
  | nil =>
    intro res t' h
    exact ⟨t', h, weakerT_refl t'⟩
  | cons k0 ks ih =>
    intro res t' h
    simp only [clearClaimed] at h
    obtain ⟨t1, ht1, hw1⟩ := ih _ h
    obtain ⟨t0, ht0, hw0⟩ := fetch_clearClaimStep_weaker ht1
    exact ⟨t0, ht0, weakerT_trans hw0 hw1⟩

theorem fetch_clearIssued_weaker {sid : String} {k : TKey} :
    ∀ (ks : List TKey) (res : Resources) {t' : Ticket},
    fetchTicketPtr k (clearIssued sid ks res) = some t' →
    ∃ t, fetchTicketPtr k res = some t ∧ WeakerT t t' := by
  intro ks
  induction ks with
  | nil =>
    intro res t' h
    exact ⟨t', h, weakerT_refl t'⟩
  | cons k0 ks ih =>
    intro res t' h
    simp only [clearIssued] at h
    obtain ⟨t1, ht1, hw1⟩ := ih _ h
    obtain ⟨t0, ht0, hw0⟩ := fetch_clearIssueStep_weaker ht1
    exact ⟨t0, ht0, weakerT_trans hw0 hw1⟩

theorem fetch_clearClaims_weaker {s : Session} {k : TKey} {res : Resources}
    {t' : Ticket} (h : fetchTicketPtr k (clearClaims s res) = some t') :
    ∃ t, fetchTicketPtr k res = some t ∧ WeakerT t t' := by
  unfold clearClaims at h
  obtain ⟨t1, ht1, hw1⟩ := fetch_clearIssued_weaker _ _ h
  obtain ⟨t0, ht0, hw0⟩ := fetch_clearClaimed_weaker _ _ ht1
  exact ⟨t0, ht0, weakerT_trans hw0 hw1⟩

theorem fetch_fold_clearClaims_weaker {k : TKey} :
    ∀ (ss : List Session) (res : Resources) {t' : Ticket},
    fetchTicketPtr k (ss.foldl (fun acc s => clearClaims s acc) res) = some t' →
    ∃ t, fetchTicketPtr k res = some t ∧ WeakerT t t' := by
  intro ss
  induction ss with
  | nil =>
    intro res t' h
    exact ⟨t', h, weakerT_refl t'⟩
  | cons s ss ih =>
    intro res t' h
    obtain ⟨t1, ht1, hw1⟩ := ih (clearClaims s res) h
    obtain ⟨t0, ht0, hw0⟩ := fetch_clearClaims_weaker ht1
    exact ⟨t0, ht0, weakerT_trans hw0 hw1⟩

/-- Right after its own clearing step, the ticket at `k` no longer has
this session as claimant. -/
theorem clearClaimStep_cleared {sid : String} {k : TKey} {res : Resources}
    {t' : Ticket} (h : fetchTicketPtr k (clearClaimStep sid k res) = some t') :
    t'.claimant ≠ some sid := by
  cases hf : fetchTicketPtr k res with
  | none => rw [clearClaimStep_of_none hf, hf] at h; cases h
  | some t0 =>
    rw [clearClaimStep_of_some hf] at h
    by_cases hc : t0.claimant = some sid
    · rw [if_pos hc, fetch_updTicket, if_pos rfl, hf] at h
      simp only [Option.map_some', Option.some.injEq] at h
      rw [← h]
      simp
    · rw [if_neg hc, hf] at h
      cases h
      exact hc

theorem clearIssueStep_cleared {sid : String} {k : TKey} {res : Resources}
    {t' : Ticket} (h : fetchTicketPtr k (clearIssueStep sid k res) = some t') :
    t'.issuer ≠ some sid := by
  cases hf : fetchTicketPtr k res with
  | none => rw [clearIssueStep_of_none hf, hf] at h; cases h
  | some t0 =>
    rw [clearIssueStep_of_some hf] at h
    by_cases hc : t0.issuer = some sid
    · rw [if_pos hc, fetch_updTicket, if_pos rfl, hf] at h
      simp only [Option.map_some', Option.some.injEq] at h
      rw [← h]
      simp
    · rw [if_neg hc, hf] at h
      cases h
      exact hc

theorem clearClaimed_cleared {sid : String} {k : TKey} :
    ∀ (ks : List TKey) (res : Resources) {t' : Ticket}, k ∈ ks →
    fetchTicketPtr k (clearClaimed sid ks res) = some t' →
    t'.claimant ≠ some sid := by
  intro ks
  induction ks with
  | nil => intro res t' h; simp at h
  | cons k0 ks ih =>
    intro res t' hmem h
    simp only [clearClaimed] at h
    by_cases hk : k ∈ ks
    · exact ih _ hk h
    · have hk0 : k = k0 := by
        rcases List.mem_cons.mp hmem with h' | h'
        · exact h'
        · exact absurd h' hk
      subst hk0
      obtain ⟨t1, ht1, hw⟩ := fetch_clearClaimed_weaker _ _ h
      have h1 := clearClaimStep_cleared ht1
      rcases hw.2.2.2.2 with hcl | hcl
      · rw [hcl]; exact h1
      · rw [hcl]; simp

theorem clearIssued_cleared {sid : String} {k : TKey} :
    ∀ (ks : List TKey) (res : Resources) {t' : Ticket}, k ∈ ks →
    fetchTicketPtr k (clearIssued sid ks res) = some t' →
    t'.issuer ≠ some sid := by
  intro ks
  induction ks with
  | nil => intro res t' h; simp at h
  | cons k0 ks ih =>
    intro res t' hmem h
    simp only [clearIssued] at h
    by_cases hk : k ∈ ks
    · exact ih _ hk h
    · have hk0 : k = k0 := by
        rcases List.mem_cons.mp hmem with h' | h'
        · exact h'
        · exact absurd h' hk
      subst hk0
      obtain ⟨t1, ht1, hw⟩ := fetch_clearIssued_weaker _ _ h
      have h1 := clearIssueStep_cleared ht1
      rcases hw.2.2.2.1 with hcl | hcl
      · rw [hcl]; exact h1
      · rw [hcl]; simp

theorem clearClaims_claim_cleared {s : Session} {k : TKey} {res : Resources}
    {t' : Ticket} (hmem : k ∈ s.tickets)
    (h : fetchTicketPtr k (clearClaims s res) = some t') :
    t'.claimant ≠ some s.id := by
  unfold clearClaims at h
  obtain ⟨t1, ht1, hw⟩ := fetch_clearIssued_weaker _ _ h
  have h1 := clearClaimed_cleared _ _ hmem ht1
  rcases hw.2.2.2.2 with hcl | hcl
  · rw [hcl]; exact h1
  · rw [hcl]; simp

theorem clearClaims_issue_cleared {s : Session} {k : TKey} {res : Resources}
    {t' : Ticket} (hmem : k ∈ s.issuances)
    (h : fetchTicketPtr k (clearClaims s res) = some t') :
    t'.issuer ≠ some s.id := by
  unfold clearClaims at h
  exact clearIssued_cleared _ _ hmem h

theorem fold_clearClaims_claim_cleared {k : TKey} :
    ∀ (ss : List Session) (res : Resources) {s : Session} {t' : Ticket},
    s ∈ ss → k ∈ s.tickets →
    fetchTicketPtr k (ss.foldl (fun acc s => clearClaims s acc) res) = some t' →
    t'.claimant ≠ some s.id := by
  intro ss
  induction ss with
  | nil => intro res s t' h; simp at h
  | cons s0 ss ih =>
    intro res s t' hmem hk h
    rcases List.mem_cons.mp hmem with hs | hs
    · subst hs
      obtain ⟨t1, ht1, hw⟩ := fetch_fold_clearClaims_weaker ss (clearClaims s res) h
      have h1 := clearClaims_claim_cleared hk ht1
      rcases hw.2.2.2.2 with hcl | hcl
      · rw [hcl]; exact h1
      · rw [hcl]; simp
    · exact ih _ hs hk h

theorem fold_clearClaims_issue_cleared {k : TKey} :
    ∀ (ss : List Session) (res : Resources) {s : Session} {t' : Ticket},
    s ∈ ss → k ∈ s.issuances →
    fetchTicketPtr k (ss.foldl (fun acc s => clearClaims s acc) res) = some t' →
    t'.issuer ≠ some s.id := by
  intro ss
  induction ss with
  | nil => intro res s t' h; simp at h
  | cons s0 ss ih =>
    intro res s t' hmem hk h
    rcases List.mem_cons.mp hmem with hs | hs
    · subst hs
      obtain ⟨t1, ht1, hw⟩ := fetch_fold_clearClaims_weaker ss (clearClaims s res) h
      have h1 := clearClaims_issue_cleared hk ht1
      rcases hw.2.2.2.1 with hcl | hcl
      · rw [hcl]; exact h1
      · rw [hcl]; simp
    · exact ih _ hs hk h

/-! ### Keyedness bookkeeping for the sweep -/

theorem fetch_eq_of_rlookup_none {k : TKey} {res : Resources}
    (h : alookup k.1 res = none) : fetchTicketPtr k res = none := by
  unfold fetchTicketPtr
  rw [h]

theorem fetch_eq_of_rlookup_some {k : TKey} {res : Resources} {r : Resource}
    (h : alookup k.1 res = some r) : fetchTicketPtr k res = alookup k.2 r.tickets := by
  unfold fetchTicketPtr
  rw [h]

theorem map_fst_map_values {β γ : Type} (g : String × β → γ) (l : List (String × β)) :
    (l.map fun p => (p.1, g p)).map Prod.fst = l.map Prod.fst := by
  induction l with
  | nil => rfl
  | cons p t ih => simp [ih]

theorem nodupKeys_of_fst_eq {β γ : Type} {l : List (String × β)}
    {l' : List (String × γ)} (h : l'.map Prod.fst = l.map Prod.fst)
    (hl : nodupKeys l) : nodupKeys l' := by
  have h2 : (l'.map Prod.fst).Pairwise Ne := by
    rw [h]
    exact List.pairwise_map.mpr hl
  exact List.pairwise_map.mp h2

theorem updTicketIn_map_fst (tn : String) (f : Ticket → Ticket)
    (l : List (String × Ticket)) :
    (updTicketIn tn f l).map Prod.fst = l.map Prod.fst := by
  induction l with
  | nil => rfl
  | cons p t ih =>
    obtain ⟨k0, t0⟩ := p
    by_cases h0 : k0 = tn
    · simp [updTicketIn, h0]
    · simp [updTicketIn, h0, ih]

theorem updTicket_map_fst (key : TKey) (f : Ticket → Ticket) (res : Resources) :
    (updTicket key f res).map Prod.fst = res.map Prod.fst := by
  induction res with
  | nil => rfl
  | cons p t ih =>
    obtain ⟨k0, r0⟩ := p
    by_cases h0 : k0 = key.1
    · simp [updTicket, h0]
    · simp [updTicket, h0, ih]

theorem mem_updTicket {p : String × Resource} {key : TKey} {f : Ticket → Ticket} :
    ∀ {res : Resources}, p ∈ updTicket key f res →
    p ∈ res ∨ ∃ q, q ∈ res ∧ p = (q.1, { q.2 with tickets := updTicketIn key.2 f q.2.tickets }) := by
  intro res
  induction res with
  | nil => intro h; simp [updTicket] at h
  | cons q0 t ih =>
    intro h
    obtain ⟨k0, r0⟩ := q0
    by_cases h0 : k0 = key.1
    · simp only [updTicket, if_pos h0] at h
      rcases List.mem_cons.mp h with h' | h'
      · exact Or.inr ⟨(k0, r0), List.mem_cons_self _ _, h'⟩
      · exact Or.inl (List.mem_cons_of_mem _ h')
    · simp only [updTicket, if_neg h0] at h
      rcases List.mem_cons.mp h with h' | h'
      · exact Or.inl (h' ▸ List.mem_cons_self _ _)
      · rcases ih h' with h2 | ⟨q, hq, hpq⟩
        · exact Or.inl (List.mem_cons_of_mem _ h2)
        · exact Or.inr ⟨q, List.mem_cons_of_mem _ hq, hpq⟩

/-- Well-formed resource map: duplicate-free resource keys and, inside
each resource, duplicate-free ticket keys. -/
def WellKeyedRes (res : Resources) : Prop :=
  nodupKeys res ∧ ∀ p ∈ res, nodupKeys p.2.tickets

theorem wellKeyedRes_updTicket {res : Resources} (key : TKey) (f : Ticket → Ticket)
    (h : WellKeyedRes res) : WellKeyedRes (updTicket key f res) := by
  refine ⟨nodupKeys_of_fst_eq (updTicket_map_fst key f res) h.1, ?_⟩
  intro p hp
  rcases mem_updTicket hp with h' | ⟨q, hq, hpq⟩
  · exact h.2 p h'
  · rw [hpq]
    exact nodupKeys_of_fst_eq (updTicketIn_map_fst _ f _) (h.2 q hq)

theorem wellKeyedRes_clearClaimStep {res : Resources} (sid : String) (k : TKey)
    (h : WellKeyedRes res) : WellKeyedRes (clearClaimStep sid k res) := by
  cases hf : fetchTicketPtr k res with
  | none => rw [clearClaimStep_of_none hf]; exact h
  | some t0 =>
    rw [clearClaimStep_of_some hf]
    by_cases hc : t0.claimant = some sid
    · rw [if_pos hc]
      exact wellKeyedRes_updTicket _ _ h
    · rw [if_neg hc]
      exact h

theorem wellKeyedRes_clearIssueStep {res : Resources} (sid : String) (k : TKey)
    (h : WellKeyedRes res) : WellKeyedRes (clearIssueStep sid k res) := by
  cases hf : fetchTicketPtr k res with
  | none => rw [clearIssueStep_of_none hf]; exact h
  | some t0 =>
    rw [clearIssueStep_of_some hf]
    by_cases hc : t0.issuer = some sid
    · rw [if_pos hc]
      exact wellKeyedRes_updTicket _ _ h
    · rw [if_neg hc]
      exact h

theorem wellKeyedRes_clearClaimed (sid : String) :
    ∀ (ks : List TKey) {res : Resources}, WellKeyedRes res →
    WellKeyedRes (clearClaimed sid ks res) := by
  intro ks
  induction ks with
  | nil => intro res h; exact h
  | cons k0 ks ih =>
    intro res h
    exact ih (wellKeyedRes_clearClaimStep sid k0 h)

theorem wellKeyedRes_clearIssued (sid : String) :
    ∀ (ks : List TKey) {res : Resources}, WellKeyedRes res →
    WellKeyedRes (clearIssued sid ks res) := by
  intro ks
  induction ks with
  | nil => intro res h; exact h
  | cons k0 ks ih =>
    intro res h
    exact ih (wellKeyedRes_clearIssueStep sid k0 h)

theorem wellKeyedRes_clearClaims (s : Session) {res : Resources}
    (h : WellKeyedRes res) : WellKeyedRes (clearClaims s res) :=
  wellKeyedRes_clearIssued _ _ (wellKeyedRes_clearClaimed _ _ h)

theorem wellKeyedRes_fold (ss : List Session) :
    ∀ {res : Resources}, WellKeyedRes res →
    WellKeyedRes (ss.foldl (fun acc s => clearClaims s acc) res) := by
  induction ss with
  | nil => intro res h; exact h
  | cons s ss ih =>
    intro res h
    exact ih (wellKeyedRes_clearClaims s h)

/-! ### The sweep's filter passes -/

theorem liveSessions_eq_filter (now : Nat) (l : Sessions) :
    liveSessions now l = l.filter fun p => !decide (p.2.expires < now) := by
  induction l with
  | nil => rfl
  | cons p t ih =>
    obtain ⟨k0, s0⟩ := p
    by_cases h0 : s0.expires < now
    · simp [liveSessions, h0, List.filter, ih]
    · simp [liveSessions, h0, List.filter, ih]

theorem dropNullIssuers_eq_filter (l : List (String × Ticket)) :
    dropNullIssuers l = l.filter fun p => !decide (p.2.issuer = none) := by
  induction l with
  | nil => rfl
  | cons p t ih =>
    obtain ⟨k0, t0⟩ := p
    by_cases h0 : t0.issuer = none
    · simp [dropNullIssuers, h0, List.filter, ih]
    · simp [dropNullIssuers, h0, List.filter, ih]

theorem dropEmptyResources_eq_filter (l : Resources) :
    dropEmptyResources l = l.filter fun p => !decide (p.2.tickets = []) := by
  induction l with
  | nil => rfl
  | cons p t ih =>
    obtain ⟨k0, r0⟩ := p
    by_cases h0 : r0.tickets = []
    · simp [dropEmptyResources, h0, List.filter, ih]
    · simp [dropEmptyResources, h0, List.filter, ih]

theorem sweepTickets_eq_map (l : Resources) :
    sweepTickets l = l.map fun p => (p.1, { p.2 with tickets := dropNullIssuers p.2.tickets }) := by
  induction l with
  | nil => rfl
  | cons p t ih =>
    obtain ⟨k0, r0⟩ := p
    simp [sweepTickets, ih]

theorem mem_dropEmptyResources {p : String × Resource} {l : Resources}
    (h : p ∈ dropEmptyResources l) : p.2.tickets ≠ [] ∧ p ∈ l := by
  rw [dropEmptyResources_eq_filter] at h
  have h2 := List.mem_filter.mp h
  refine ⟨?_, h2.1⟩
  have := h2.2
  simpa using this

theorem mem_dropNullIssuers {q : String × Ticket} {l : List (String × Ticket)}
    (h : q ∈ dropNullIssuers l) : q.2.issuer ≠ none ∧ q ∈ l := by
  rw [dropNullIssuers_eq_filter] at h
  have h2 := List.mem_filter.mp h
  refine ⟨?_, h2.1⟩
  have := h2.2
  simpa using this

theorem mem_sweepTickets {p : String × Resource} {l : Resources}
    (h : p ∈ sweepTickets l) :
    ∃ r0, (p.1, r0) ∈ l ∧ p.2 = { r0 with tickets := dropNullIssuers r0.tickets } := by
  rw [sweepTickets_eq_map] at h
  obtain ⟨q, hq, hpq⟩ := List.mem_map.mp h
  exact ⟨q.2, by rw [← hpq]; exact hq, by rw [← hpq]⟩

theorem mem_expiredList {now : Nat} :
    ∀ {l : Sessions} {p : String × Session}, p ∈ l → p.2.expires < now →
    p.2 ∈ expiredList now l := by
  intro l
  induction l with
  | nil => intro p h; simp at h
  | cons q t ih =>
    intro p hmem hexp
    obtain ⟨k0, s0⟩ := q
    rcases List.mem_cons.mp hmem with h' | h'
    · rw [h'] at hexp ⊢
      simp only [expiredList, if_pos hexp]
      exact List.mem_cons_self _ _
    · by_cases h0 : s0.expires < now
      · simp only [expiredList, if_pos h0]
        exact List.mem_cons_of_mem _ (ih h' hexp)
      · simp only [expiredList, if_neg h0]
        exact ih h' hexp

/-- A ticket found after the sweep's two filter passes was already
present, unchanged, before them. -/
theorem fetch_sweep {k : TKey} {res : Resources} {t : Ticket}
    (hwk : WellKeyedRes res)
    (h : fetchTicketPtr k (dropEmptyResources (sweepTickets res)) = some t) :
    fetchTicketPtr k res = some t := by
  have hnd1 : nodupKeys (sweepTickets res) := by
    refine nodupKeys_of_fst_eq ?_ hwk.1
    rw [sweepTickets_eq_map]
    exact map_fst_map_values _ res
  cases hr1 : alookup k.1 (dropEmptyResources (sweepTickets res)) with
  | none => rw [fetch_eq_of_rlookup_none hr1] at h; cases h
  | some r1 =>
    rw [fetch_eq_of_rlookup_some hr1] at h
    rw [dropEmptyResources_eq_filter, alookup_filter _ hnd1] at hr1
    cases hr2 : alookup k.1 (sweepTickets res) with
    | none => rw [hr2] at hr1; cases hr1
    | some r2 =>
      rw [hr2] at hr1
      by_cases hp : r2.tickets = []
      · simp [hp] at hr1
      · simp [hp] at hr1
        subst hr1
        rw [sweepTickets_eq_map] at hr2
        have hr3 := alookup_map_values (fun _ r => { r with tickets := dropNullIssuers r.tickets }) k.1 res
        simp only at hr3
        rw [hr3] at hr2
        cases hr0 : alookup k.1 res with
        | none => rw [hr0] at hr2; cases hr2
        | some r0 =>
          rw [hr0] at hr2
          simp only [Option.map_some', Option.some.injEq] at hr2
          rw [← hr2] at h
          simp only at h
          have hndt : nodupKeys r0.tickets := hwk.2 _ (alookup_mem hr0)
          rw [dropNullIssuers_eq_filter, alookup_filter _ hndt] at h
          cases ht0 : alookup k.2 r0.tickets with
          | none => rw [ht0] at h; cases h
          | some t0 =>
            rw [ht0] at h
            by_cases hi : t0.issuer = none
            · simp [hi] at h
            · simp [hi] at h
              rw [fetch_eq_of_rlookup_some hr0, ht0, h]

/-! ### C3: the expiration sweep -/

/-- A state whose maps a Go program can represent: duplicate-free
session keys, resource keys and per-resource ticket keys. -/
def WellKeyed (st : State) : Prop :=
  nodupKeys st.sessions ∧ WellKeyedRes st.resources

/-- The claimed postcondition of one run of the expiration sweep: every
expired session is gone with its claims and issuances cleared from the
surviving tickets, no surviving ticket has a nil issuer, and no empty
resource survives. -/
def SweepPost (st : State) (now : Nat) : Prop :=
  (∀ id s, alookup id st.sessions = some s → s.expires < now →
    alookup id (expireSessions st now).sessions = none ∧
    (∀ k t, k ∈ s.tickets →
      fetchTicketPtr k (expireSessions st now).resources = some t →
      t.claimant ≠ some s.id) ∧
    (∀ k t, k ∈ s.issuances →
      fetchTicketPtr k (expireSessions st now).resources = some t →
      t.issuer ≠ some s.id)) ∧
  (∀ rn r, alookup rn (expireSessions st now).resources = some r →
    r.tickets ≠ [] ∧ ∀ tn t, alookup tn r.tickets = some t → t.issuer ≠ none)

/-- C3.  After one `expireSessions` run: every session whose deadline had
passed is removed and no surviving ticket carries its id as claimant or
issuer; no ticket with a nil issuer survives; no resource with an empty
ticket map survives. -/
theorem c3_sweep (st : State) (now : Nat) (h : WellKeyed st) : SweepPost st now := by
  have hres : (expireSessions st now).resources
      = dropEmptyResources (sweepTickets
          ((expiredList now st.sessions).foldl (fun acc s => clearClaims s acc) st.resources)) := rfl
  have hwkc : WellKeyedRes
      ((expiredList now st.sessions).foldl (fun acc s => clearClaims s acc) st.resources) :=
    wellKeyedRes_fold _ h.2
  constructor
  · intro id s hs hexp
    refine ⟨?_, ?_, ?_⟩
    · show alookup id (liveSessions now st.sessions) = none
      rw [liveSessions_eq_filter, alookup_filter _ h.1, hs]
      simp [hexp]
    · intro k t hk hf
      rw [hres] at hf
      have h1 := fetch_sweep hwkc hf
      exact fold_clearClaims_claim_cleared _ _ (mem_expiredList (alookup_mem hs) hexp) hk h1
    · intro k t hk hf
      rw [hres] at hf
      have h1 := fetch_sweep hwkc hf
      exact fold_clearClaims_issue_cleared _ _ (mem_expiredList (alookup_mem hs) hexp) hk h1
  · intro rn r hr
    rw [hres] at hr
    have h1 := mem_dropEmptyResources (alookup_mem hr)
    obtain ⟨r0, hr0, hre⟩ := mem_sweepTickets h1.2
    refine ⟨h1.1, ?_⟩
    intro tn t ht
    have h2 : (tn, t) ∈ r.tickets := alookup_mem ht
    have hre2 : r.tickets = dropNullIssuers r0.tickets := congrArg Resource.tickets hre
    rw [hre2] at h2
    exact (mem_dropNullIssuers h2).1

def wSess3 : Session := ⟨"w", "s1", "a", 5, [("r", "foo")], [("r", "foo")], 5⟩
def wTick3 : Ticket := ⟨"foo", "r", [], some "s1", some "s1"⟩
def wSt3 : State := ⟨[("s1", wSess3)], [("r", ⟨"r", false, [("foo", wTick3)]⟩)]⟩

/-- Witness for C3 at a concrete state with one expired session that
both issued and claimed the only ticket. -/
theorem c3_sweep_witness : SweepPost wSt3 10 :=
  c3_sweep wSt3 10 ⟨by decide, by decide, by decide⟩

/-! ### Snapshot and restore (snapshot.go)

`snapshotSessions`/`snapshotResources` gob-encode the deep clones
produced by `GetSessions`/`GetResources`.  Gob keeps exported fields
only, so a session's unexported `expires` is not persisted (the loader
calls `refresh`).  Ticket clones carry issuer/claimant session stubs of
which the loader only ever reads the `Id`, so the model keeps the ids.
A nil `Data` slice and an empty one are the same byte string, so the
loader's nil-to-empty normalisation is the identity here. -/

/-- A session record as gob persists it: the exported fields. -/
structure SessRec where
  name : String
  id : String
  src : String
  ttl : Nat
  tickets : List TKey
  issuances : List TKey
deriving DecidableEq

/-- The decoded contents of `sessions.gob` and `resources.gob`. -/
abbrev SnapFiles := List SessRec × List Resource

/-- `GetSessions` clone followed by gob encode, for one session. -/
def sessRecOf (s : Session) : SessRec :=
  ⟨s.name, s.id, s.src, s.ttl, s.tickets, s.issuances⟩

/-- `GetResources` clone followed by gob encode: the record's name is
the resource's key in the map. -/
def resRecOf (k : String) (r : Resource) : Resource :=
  ⟨k, r.isLock, r.tickets⟩

/-- The snapshot pair written for a state (`snapshot`, snapshot.go). -/
def snapshotFiles (st : State) : SnapFiles :=
  (st.sessions.map fun p => sessRecOf p.2,
   st.resources.map fun p => resRecOf p.1 p.2)

/-- Decoded session with the zero `expires` of a fresh record. -/
def sessionOfRec (rec : SessRec) : Session :=
  ⟨rec.name, rec.id, rec.src, rec.ttl, rec.tickets, rec.issuances, 0⟩

/-- `loadSessions`: decode records in file order into an id-keyed map. -/
def loadSessionsMap (l : List SessRec) : Sessions :=
  l.foldl (fun acc rec => aupsert rec.id (sessionOfRec rec) acc) []

/-- `loadResources`: decode records in file order into a name-keyed map. -/
def loadResourcesMap (l : List Resource) : Resources :=
  l.foldl (fun acc r => aupsert r.name r acc) []

/-- The claimed-tickets walk of `loadSnapshot`: resolve each
back-reference to the canonical ticket (failing the load if the
resource or ticket is missing), replace the entry by that canonical
pointer, and set the canonical ticket's claimant to this session. -/
def relinkClaimed (sid : String) : List TKey → Resources → Option (List TKey × Resources)
  | [], res => some ([], res)
  | k :: ks, res =>
    match fetchTicketPtr k res with
    | none => none
    | some c =>
      let res' := updTicket k (fun u => { u with claimant := some sid }) res
      match relinkClaimed sid ks res' with
      | none => none
      | some (ks', res'') => some ((c.resourceName, c.name) :: ks', res'')

/-- The issued-tickets walk of `loadSnapshot`: as above but setting the
canonical ticket's issuer. -/
def relinkIssued (sid : String) : List TKey → Resources → Option (List TKey × Resources)
  | [], res => some ([], res)
  | k :: ks, res =>
    match fetchTicketPtr k res with
    | none => none
    | some c =>
      let res' := updTicket k (fun u => { u with issuer := some sid }) res
      match relinkIssued sid ks res' with
      | none => none
      | some (ks', res'') => some ((c.resourceName, c.name) :: ks', res'')

/-- Both walks for one session, plus its `refresh`. -/
def relinkSession (res : Resources) (s : Session) (now : Nat) : Option (Session × Resources) :=
  match relinkClaimed s.id s.tickets res with
  | none => none
  | some (tks, res1) =>
    match relinkIssued s.id s.issuances res1 with
    | none => none
    | some (iss, res2) =>
      some ({ s with tickets := tks, issuances := iss, expires := now + s.ttl }, res2)

/-- The walk over every decoded session, threading the resource map. -/
def relinkAll (now : Nat) : Sessions → Resources → Option (Sessions × Resources)
  | [], res => some ([], res)
  | (k, s) :: rest, res =>
    match relinkSession res s now with
    | none => none
    | some (s', res') =>
      match relinkAll now rest res' with
      | none => none
      | some (rest', res'') => some ((k, s') :: rest', res'')

/-- Half of the final pass of `loadSnapshot`: collapse a non-nil issuer
stub onto the canonical session of that id (nil if absent). -/
def fixTicketIssuer (sessions : Sessions) (t : Ticket) : Ticket :=
  match t.issuer with
  | some i => { t with issuer := if (alookup i sessions).isSome then some i else none }
  | none => t

/-- The claimant half of the final pass. -/
def fixTicketClaimant (sessions : Sessions) (t : Ticket) : Ticket :=
  match t.claimant with
  | some c => { t with claimant := if (alookup c sessions).isSome then some c else none }
  | none => t

/-- The final pass of `loadSnapshot` on one ticket. -/
def fixTicketRefs (sessions : Sessions) (t : Ticket) : Ticket :=
  fixTicketClaimant sessions (fixTicketIssuer sessions t)

def fixAllRefs (sessions : Sessions) (res : Resources) : Resources :=
  res.map fun p => (p.1, { p.2 with tickets := p.2.tickets.map fun q => (q.1, fixTicketRefs sessions q.2) })

/-- `loadSnapshot` (snapshot.go 191-254): decode both files, re-link the
pointer graph, refresh every session; `none` is the failed load. -/
def loadSnapshot (files : SnapFiles) (now : Nat) : Option State :=
  match relinkAll now (loadSessionsMap files.1) (loadResourcesMap files.2) with
  | none => none
  | some (sessions1, resources1) => some ⟨sessions1, fixAllRefs sessions1 resources1⟩

/-! ### C8: what state the writer restarts with -/

/-- The state `ticketProc` (ticket.go 93-105) starts serving with: fresh
empty maps, replaced by the loaded snapshot when a snapshot path is
configured, the files are readable and the load succeeds. -/
def writerInit (snapConfigured : Bool) (disk : Option SnapFiles) (now : Nat) : State :=
  if snapConfigured then
    match disk with
    | some files =>
      match loadSnapshot files now with
      | some st => st
      | none => State.empty
    | none => State.empty
  else State.empty

/-- The state after the writer recovers from a panic: `ticketProc`
returns with `restart = true` and `Start` (ticket.go 135-142) re-invokes
it, so the fault-restart runs the same initialisation — including the
snapshot load — as a fresh start. -/
def stateAfterFaultRestart (snapConfigured : Bool) (disk : Option SnapFiles) (now : Nat) : State :=
  writerInit snapConfigured disk now

def c8Files : SnapFiles := ([⟨"n", "s1", "x", 5, [], []⟩], [])

/-- Counterexample to C8 as stated: with snapshotting configured and a
decodable snapshot on disk, the writer does *not* restart empty after a
panic — `Start`'s restart loop re-enters `ticketProc`, which reloads the
snapshot. -/
theorem c8_restart_counterexample :
    stateAfterFaultRestart true (some c8Files) 0 ≠ State.empty := by
  decide

/-- C8 as amended: the fault-restart runs the same initialisation as a
fresh start, so it restarts empty exactly when snapshotting is disabled,
no snapshot is on disk, or the load fails; with a loadable snapshot the
reloaded state (not a fresh one) is served. -/
def C8RestartAmended : Prop :=
  (∀ d now, stateAfterFaultRestart false d now = State.empty) ∧
  (∀ now, stateAfterFaultRestart true none now = State.empty) ∧
  (∀ files now, loadSnapshot files now = none →
    stateAfterFaultRestart true (some files) now = State.empty) ∧
  (∀ files st now, loadSnapshot files now = some st →
    stateAfterFaultRestart true (some files) now = st)

/-- C8 amended and proved: panic recovery restarts the writer through
the ordinary initialisation, snapshot reload included. -/
theorem c8_restart_amended : C8RestartAmended := by
  refine ⟨fun d now => rfl, fun now => rfl, ?_, ?_⟩
  · intro files now h
    simp [stateAfterFaultRestart, writerInit, h]
  · intro files st now h
    simp [stateAfterFaultRestart, writerInit, h]

/-! ### C7: the snapshot round trip -/

theorem aupsert_append_of_fresh {β : Type} {k : String} {v : β} :
    ∀ {acc : List (String × β)}, (∀ q ∈ acc, q.1 ≠ k) →
    aupsert k v acc = acc ++ [(k, v)] := by
  intro acc
  induction acc with
  | nil => intro _; rfl
  | cons q t ih =>
    intro h
    obtain ⟨k0, v0⟩ := q
    have h0 : k0 ≠ k := h (k0, v0) (List.mem_cons_self _ _)
    simp only [aupsert, if_neg h0, List.cons_append]
    rw [ih fun q hq => h q (List.mem_cons_of_mem _ hq)]

theorem loadSessionsMap_aux :
    ∀ (recs : List SessRec) (acc : Sessions),
    (recs.map SessRec.id).Pairwise Ne →
    (∀ r ∈ recs, ∀ q ∈ acc, q.1 ≠ r.id) →
    recs.foldl (fun acc rec => aupsert rec.id (sessionOfRec rec) acc) acc
      = acc ++ recs.map fun r => (r.id, sessionOfRec r) := by
  intro recs
  induction recs with
  | nil => intro acc _ _; simp
  | cons r rest ih =>
    intro acc hnd hfresh
    have hstep : aupsert r.id (sessionOfRec r) acc = acc ++ [(r.id, sessionOfRec r)] :=
      aupsert_append_of_fresh fun q hq => hfresh r (List.mem_cons_self _ _) q hq
    have hhd : ∀ b ∈ rest.map SessRec.id, r.id ≠ b := (List.pairwise_cons.mp (by simpa using hnd)).1
    have hfresh' : ∀ r' ∈ rest, ∀ q ∈ acc ++ [(r.id, sessionOfRec r)], q.1 ≠ r'.id := by
      intro r' hr' q hq
      rcases List.mem_append.mp hq with h' | h'
      · exact hfresh r' (List.mem_cons_of_mem _ hr') q h'
      · simp at h'
        subst h'
        exact hhd r'.id (List.mem_map.mpr ⟨r', hr', rfl⟩)
    calc (r :: rest).foldl (fun acc rec => aupsert rec.id (sessionOfRec rec) acc) acc
        = rest.foldl (fun acc rec => aupsert rec.id (sessionOfRec rec) acc)
            (acc ++ [(r.id, sessionOfRec r)]) := by rw [List.foldl_cons, hstep]
      _ = (acc ++ [(r.id, sessionOfRec r)]) ++ rest.map fun r => (r.id, sessionOfRec r) :=
            ih _ ((List.pairwise_cons.mp (by simpa using hnd)).2) hfresh'
      _ = acc ++ (r :: rest).map fun r => (r.id, sessionOfRec r) := by simp

theorem loadSessionsMap_eq {recs : List SessRec}
    (hnd : (recs.map SessRec.id).Pairwise Ne) :
    loadSessionsMap recs = recs.map fun r => (r.id, sessionOfRec r) := by
  unfold loadSessionsMap
  have := loadSessionsMap_aux recs [] hnd (by intro r _ q hq; simp at hq)
  simpa using this

theorem loadResourcesMap_aux :
    ∀ (recs : List Resource) (acc : Resources),
    (recs.map Resource.name).Pairwise Ne →
    (∀ r ∈ recs, ∀ q ∈ acc, q.1 ≠ r.name) →
    recs.foldl (fun acc r => aupsert r.name r acc) acc
      = acc ++ recs.map fun r => (r.name, r) := by
  intro recs
  induction recs with
  | nil => intro acc _ _; simp
  | cons r rest ih =>
    intro acc hnd hfresh
    have hstep : aupsert r.name r acc = acc ++ [(r.name, r)] :=
      aupsert_append_of_fresh fun q hq => hfresh r (List.mem_cons_self _ _) q hq
    have hhd : ∀ b ∈ rest.map Resource.name, r.name ≠ b := (List.pairwise_cons.mp (by simpa using hnd)).1
    have hfresh' : ∀ r' ∈ rest, ∀ q ∈ acc ++ [(r.name, r)], q.1 ≠ r'.name := by
      intro r' hr' q hq
      rcases List.mem_append.mp hq with h' | h'
      · exact hfresh r' (List.mem_cons_of_mem _ hr') q h'
      · simp at h'
        subst h'
        exact hhd r'.name (List.mem_map.mpr ⟨r', hr', rfl⟩)
    calc (r :: rest).foldl (fun acc r => aupsert r.name r acc) acc
        = rest.foldl (fun acc r => aupsert r.name r acc) (acc ++ [(r.name, r)]) := by
            rw [List.foldl_cons, hstep]
      _ = (acc ++ [(r.name, r)]) ++ rest.map fun r => (r.name, r) :=
            ih _ ((List.pairwise_cons.mp (by simpa using hnd)).2) hfresh'
      _ = acc ++ (r :: rest).map fun r => (r.name, r) := by simp

theorem loadResourcesMap_eq {recs : List Resource}
    (hnd : (recs.map Resource.name).Pairwise Ne) :
    loadResourcesMap recs = recs.map fun r => (r.name, r) := by
  unfold loadResourcesMap
  have := loadResourcesMap_aux recs [] hnd (by intro r _ q hq; simp at hq)
  simpa using this

theorem updTicketIn_id {tn : String} {f : Ticket → Ticket} :
    ∀ {l : List (String × Ticket)}, (∀ t, alookup tn l = some t → f t = t) →
    updTicketIn tn f l = l := by
  intro l
  induction l with
  | nil => intro _; rfl
  | cons p rest ih =>
    intro h
    obtain ⟨k0, t0⟩ := p
    by_cases h0 : k0 = tn
    · subst h0
      have : f t0 = t0 := h t0 (by simp [alookup])
      simp [updTicketIn, this]
    · simp only [updTicketIn, if_neg h0]
      rw [ih]
      intro t ht
      exact h t (by simp [alookup, h0, ht])

theorem updTicket_id {key : TKey} {f : Ticket → Ticket} :
    ∀ {res : Resources}, (∀ t, fetchTicketPtr key res = some t → f t = t) →
    updTicket key f res = res := by
  intro res
  induction res with
  | nil => intro _; rfl
  | cons p rest ih =>
    intro h
    obtain ⟨k0, r0⟩ := p
    by_cases h0 : k0 = key.1
    · subst h0
      have : updTicketIn key.2 f r0.tickets = r0.tickets := by
        apply updTicketIn_id
        intro t ht
        apply h
        have hfr : fetchTicketPtr key ((key.1, r0) :: rest) = alookup key.2 r0.tickets :=
          fetch_eq_of_rlookup_some (by simp [alookup])
        rw [hfr]
        exact ht
      simp [updTicket, this]
    · simp only [updTicket, if_neg h0]
      rw [ih]
      intro t ht
      apply h
      unfold fetchTicketPtr at ht ⊢
      have hne : ¬ k0 = key.1 := h0
      simpa [alookup, hne] using ht

theorem relinkClaimed_id {sid : String} :
    ∀ {ks : List TKey} {res : Resources},
    (∀ k ∈ ks, ∃ t, fetchTicketPtr k res = some t ∧ t.claimant = some sid ∧
      t.resourceName = k.1 ∧ t.name = k.2) →
    relinkClaimed sid ks res = some (ks, res) := by
  intro ks
  induction ks with
  | nil => intro res _; rfl
  | cons k rest ih =>
    intro res h
    obtain ⟨t, hft, hcl, hrn, hn⟩ := h k (List.mem_cons_self _ _)
    have hupd : updTicket k (fun u => { u with claimant := some sid }) res = res := by
      apply updTicket_id
      intro t0 ht0
      rw [hft] at ht0
      cases ht0
      rw [← hcl]
    simp only [relinkClaimed, hft, hupd]
    rw [ih fun k' hk' => h k' (List.mem_cons_of_mem _ hk')]
    rw [hrn, hn]

theorem relinkIssued_id {sid : String} :
    ∀ {ks : List TKey} {res : Resources},
    (∀ k ∈ ks, ∃ t, fetchTicketPtr k res = some t ∧ t.issuer = some sid ∧
      t.resourceName = k.1 ∧ t.name = k.2) →
    relinkIssued sid ks res = some (ks, res) := by
  intro ks
  induction ks with
  | nil => intro res _; rfl
  | cons k rest ih =>
    intro res h
    obtain ⟨t, hft, hcl, hrn, hn⟩ := h k (List.mem_cons_self _ _)
    have hupd : updTicket k (fun u => { u with issuer := some sid }) res = res := by
      apply updTicket_id
      intro t0 ht0
      rw [hft] at ht0
      cases ht0
      rw [← hcl]
    simp only [relinkIssued, hft, hupd]
    rw [ih fun k' hk' => h k' (List.mem_cons_of_mem _ hk')]
    rw [hrn, hn]

theorem relinkAll_of (now : Nat) :
    ∀ (ss : Sessions) (res : Resources),
    (∀ p ∈ ss,
      (∀ k ∈ p.2.tickets, ∃ t, fetchTicketPtr k res = some t ∧
        t.claimant = some p.2.id ∧ t.resourceName = k.1 ∧ t.name = k.2) ∧
      (∀ k ∈ p.2.issuances, ∃ t, fetchTicketPtr k res = some t ∧
        t.issuer = some p.2.id ∧ t.resourceName = k.1 ∧ t.name = k.2)) →
    relinkAll now ss res
      = some (ss.map fun p => (p.1, { p.2 with expires := now + p.2.ttl }), res) := by
  intro ss
  induction ss with
  | nil => intro res _; rfl
  | cons p rest ih =>
    intro res h
    obtain ⟨k0, s0⟩ := p
    have h0 := h (k0, s0) (List.mem_cons_self _ _)
    have h01 : ∀ k ∈ s0.tickets, ∃ t, fetchTicketPtr k res = some t ∧
        t.claimant = some s0.id ∧ t.resourceName = k.1 ∧ t.name = k.2 := h0.1
    have h02 : ∀ k ∈ s0.issuances, ∃ t, fetchTicketPtr k res = some t ∧
        t.issuer = some s0.id ∧ t.resourceName = k.1 ∧ t.name = k.2 := h0.2
    have hsess : relinkSession res s0 now
        = some ({ s0 with expires := now + s0.ttl }, res) := by
      simp only [relinkSession, relinkClaimed_id h01, relinkIssued_id h02]
    simp only [relinkAll, hsess]
    rw [ih res fun q hq => h q (List.mem_cons_of_mem _ hq)]
    rfl

theorem fixTicketIssuer_id {sessions : Sessions} {t : Ticket}
    (hi : ∀ i, t.issuer = some i → (alookup i sessions).isSome = true) :
    fixTicketIssuer sessions t = t := by
  unfold fixTicketIssuer
  cases hti : t.issuer with
  | none => rfl
  | some i =>
    simp [hi i hti, ← hti]

theorem fixTicketClaimant_id {sessions : Sessions} {t : Ticket}
    (hc : ∀ c, t.claimant = some c → (alookup c sessions).isSome = true) :
    fixTicketClaimant sessions t = t := by
  unfold fixTicketClaimant
  cases htc : t.claimant with
  | none => rfl
  | some c =>
    simp [hc c htc, ← htc]

theorem fixTicketRefs_id {sessions : Sessions} {t : Ticket}
    (hi : ∀ i, t.issuer = some i → (alookup i sessions).isSome = true)
    (hc : ∀ c, t.claimant = some c → (alookup c sessions).isSome = true) :
    fixTicketRefs sessions t = t := by
  unfold fixTicketRefs
  rw [fixTicketIssuer_id hi, fixTicketClaimant_id hc]

theorem fixAllRefs_id {sessions : Sessions} {res : Resources}
    (h : ∀ p ∈ res, ∀ q ∈ p.2.tickets,
      (∀ i, q.2.issuer = some i → (alookup i sessions).isSome = true) ∧
      (∀ c, q.2.claimant = some c → (alookup c sessions).isSome = true)) :
    fixAllRefs sessions res = res := by
  unfold fixAllRefs
  have : ∀ p ∈ res, (p.1, { p.2 with
      tickets := p.2.tickets.map fun q => (q.1, fixTicketRefs sessions q.2) }) = p := by
    intro p hp
    have htick : p.2.tickets.map (fun q => (q.1, fixTicketRefs sessions q.2)) = p.2.tickets := by
      have : ∀ q ∈ p.2.tickets, (q.1, fixTicketRefs sessions q.2) = q := by
        intro q hq
        rw [fixTicketRefs_id (h p hp q hq).1 (h p hp q hq).2]
      calc p.2.tickets.map (fun q => (q.1, fixTicketRefs sessions q.2))
          = p.2.tickets.map id := List.map_congr_left this
        _ = p.2.tickets := List.map_id _
    rw [htick]
  calc res.map (fun p => (p.1, { p.2 with
          tickets := p.2.tickets.map fun q => (q.1, fixTicketRefs sessions q.2) }))
      = res.map id := List.map_congr_left this
    _ = res := List.map_id _

/-- Internal consistency of a state, the hypothesis of the round-trip
claim: Go-representable maps, key/field agreement (§3 invariants 1 and
6), every claimed/issued back-reference resolving to a canonical ticket
that points back at the session, and every issuer/claimant reference
naming a live session. -/
def Consistent (st : State) : Prop :=
  nodupKeys st.sessions ∧
  WellKeyedRes st.resources ∧
  (∀ p ∈ st.sessions, p.2.id = p.1) ∧
  (∀ p ∈ st.resources, p.2.name = p.1) ∧
  (∀ p ∈ st.resources, ∀ q ∈ p.2.tickets, q.2.name = q.1 ∧ q.2.resourceName = p.1) ∧
  (∀ p ∈ st.sessions, ∀ k ∈ p.2.tickets,
    ∃ t, fetchTicketPtr k st.resources = some t ∧ t.claimant = some p.2.id) ∧
  (∀ p ∈ st.sessions, ∀ k ∈ p.2.issuances,
    ∃ t, fetchTicketPtr k st.resources = some t ∧ t.issuer = some p.2.id) ∧
  (∀ p ∈ st.resources, ∀ q ∈ p.2.tickets,
    (∀ i, q.2.issuer = some i → (alookup i st.sessions).isSome = true) ∧
    (∀ c, q.2.claimant = some c → (alookup c st.sessions).isSome = true))

theorem fetch_keys_of {st : State}
    (hkeys : ∀ p ∈ st.resources, ∀ q ∈ p.2.tickets, q.2.name = q.1 ∧ q.2.resourceName = p.1)
    {k : TKey} {t : Ticket} (h : fetchTicketPtr k st.resources = some t) :
    t.resourceName = k.1 ∧ t.name = k.2 := by
  cases hr : alookup k.1 st.resources with
  | none => rw [fetch_eq_of_rlookup_none hr] at h; cases h
  | some r =>
    rw [fetch_eq_of_rlookup_some hr] at h
    have h1 := hkeys (k.1, r) (alookup_mem hr) (k.2, t) (alookup_mem h)
    exact ⟨h1.2, h1.1⟩

theorem alookup_refreshMap (now : Nat) (k : String) (l : Sessions) :
    alookup k (l.map fun p => (p.1, { p.2 with expires := now + p.2.ttl }))
      = (alookup k l).map fun s => { s with expires := now + s.ttl } := by
  induction l with
  | nil => rfl
  | cons p t ih =>
    obtain ⟨k0, s0⟩ := p
    by_cases h0 : k0 = k
    · simp [alookup, h0]
    · simp [alookup, h0, ih]

/-- What the round-trip claim says survives snapshot-then-load: every
session's id, name, src and ttl, the set of claimed and issued
`(resource_name, name)` pairs, and every ticket's name, resource name,
data bytes and issuer/claimant identities. -/
def RoundTripPreserves (st : State) (now : Nat) : Prop :=
  ∃ st', loadSnapshot (snapshotFiles st) now = some st' ∧
    (∀ k s, alookup k st.sessions = some s → ∃ s', alookup k st'.sessions = some s' ∧
      s'.id = s.id ∧ s'.name = s.name ∧ s'.src = s.src ∧ s'.ttl = s.ttl ∧
      (∀ x, x ∈ s'.tickets ↔ x ∈ s.tickets) ∧
      (∀ x, x ∈ s'.issuances ↔ x ∈ s.issuances)) ∧
    (∀ rn r, alookup rn st.resources = some r → ∀ tn t, alookup tn r.tickets = some t →
      ∃ t', fetchTicketPtr (rn, tn) st'.resources = some t' ∧
        t'.name = t.name ∧ t'.resourceName = t.resourceName ∧ t'.data = t.data ∧
        t'.issuer = t.issuer ∧ t'.claimant = t.claimant)

/-- C7.  On an internally consistent state the snapshot-then-load round
trip succeeds and reproduces the state exactly, up to the refreshed
session deadlines; in particular it preserves everything the claim
lists. -/
theorem c7_snapshot_round_trip (st : State) (now : Nat) (h : Consistent st) :
    RoundTripPreserves st now := by
  obtain ⟨hnds, hwk, hid, hrname, hkeys, hfc, hfi, hlive⟩ := h
  -- the decoded session map is the original, with zeroed deadlines
  have hrecs_ids : ((st.sessions.map fun p => sessRecOf p.2).map SessRec.id).Pairwise Ne := by
    have h1 : (st.sessions.map fun p => sessRecOf p.2).map SessRec.id
        = st.sessions.map Prod.fst := by
      rw [List.map_map]
      exact List.map_congr_left fun p hp => hid p hp
    rw [h1]
    exact List.pairwise_map.mpr hnds
  have hsess0 : loadSessionsMap (snapshotFiles st).1
      = st.sessions.map fun p => (p.1, { p.2 with expires := 0 }) := by
    show loadSessionsMap (st.sessions.map fun p => sessRecOf p.2) = _
    rw [loadSessionsMap_eq hrecs_ids, List.map_map]
    exact List.map_congr_left fun p hp => Prod.ext (hid p hp) rfl
  -- the decoded resource map is the original
  have hres_names : ((st.resources.map fun p => resRecOf p.1 p.2).map Resource.name).Pairwise Ne := by
    have h1 : (st.resources.map fun p => resRecOf p.1 p.2).map Resource.name
        = st.resources.map Prod.fst := by
      rw [List.map_map]
      exact List.map_congr_left fun p _ => rfl
    rw [h1]
    exact List.pairwise_map.mpr hwk.1
  have hres0 : loadResourcesMap (snapshotFiles st).2 = st.resources := by
    show loadResourcesMap (st.resources.map fun p => resRecOf p.1 p.2) = _
    rw [loadResourcesMap_eq hres_names, List.map_map]
    have hpt : ∀ p ∈ st.resources, ((resRecOf p.1 p.2).name, resRecOf p.1 p.2) = p := by
      intro p hp
      have hn : p.2.name = p.1 := hrname p hp
      have hr : resRecOf p.1 p.2 = p.2 := by
        unfold resRecOf
        rw [← hn]
      rw [hr, hn]
    calc st.resources.map (fun p => ((resRecOf p.1 p.2).name, resRecOf p.1 p.2))
        = st.resources.map id := List.map_congr_left hpt
      _ = st.resources := List.map_id _
  -- the relink walk is the identity on a consistent state
  have hwalk : ∀ p ∈ st.sessions.map fun p => (p.1, { p.2 with expires := 0 }),
      (∀ k ∈ p.2.tickets, ∃ t, fetchTicketPtr k st.resources = some t ∧
        t.claimant = some p.2.id ∧ t.resourceName = k.1 ∧ t.name = k.2) ∧
      (∀ k ∈ p.2.issuances, ∃ t, fetchTicketPtr k st.resources = some t ∧
        t.issuer = some p.2.id ∧ t.resourceName = k.1 ∧ t.name = k.2) := by
    intro p hp
    obtain ⟨q, hq, hpq⟩ := List.mem_map.mp hp
    constructor
    · intro k hk
      have hk' : k ∈ q.2.tickets := by
        rw [← hpq] at hk
        exact hk
      obtain ⟨t, hft, hcl⟩ := hfc q hq k hk'
      obtain ⟨hrn, hn⟩ := fetch_keys_of hkeys hft
      refine ⟨t, hft, ?_, hrn, hn⟩
      rw [← hpq]
      exact hcl
    · intro k hk
      have hk' : k ∈ q.2.issuances := by
        rw [← hpq] at hk
        exact hk
      obtain ⟨t, hft, hcl⟩ := hfi q hq k hk'
      obtain ⟨hrn, hn⟩ := fetch_keys_of hkeys hft
      refine ⟨t, hft, ?_, hrn, hn⟩
      rw [← hpq]
      exact hcl
  have hrel := relinkAll_of now (st.sessions.map fun p => (p.1, { p.2 with expires := 0 }))
    st.resources hwalk
  have hmaps : ((st.sessions.map fun p => (p.1, { p.2 with expires := 0 })).map
      fun p => (p.1, { p.2 with expires := now + p.2.ttl }))
      = st.sessions.map fun p => (p.1, { p.2 with expires := now + p.2.ttl }) := by
    rw [List.map_map]
    rfl
  rw [hmaps] at hrel
  -- the final reference-fix pass is the identity
  have hlook_iff : ∀ i, (alookup i (st.sessions.map fun p =>
      (p.1, { p.2 with expires := now + p.2.ttl }))).isSome = (alookup i st.sessions).isSome := by
    intro i
    rw [alookup_refreshMap]
    cases alookup i st.sessions <;> rfl
  have hfix : fixAllRefs (st.sessions.map fun p => (p.1, { p.2 with expires := now + p.2.ttl }))
      st.resources = st.resources := by
    apply fixAllRefs_id
    intro p hp q hq
    refine ⟨?_, ?_⟩
    · intro i hi
      rw [hlook_iff i]
      exact (hlive p hp q hq).1 i hi
    · intro c hc
      rw [hlook_iff c]
      exact (hlive p hp q hq).2 c hc
  have hload : loadSnapshot (snapshotFiles st) now
      = some ⟨st.sessions.map fun p => (p.1, { p.2 with expires := now + p.2.ttl }),
              st.resources⟩ := by
    unfold loadSnapshot
    rw [hsess0, hres0]
    simp only [hrel]
    rw [hfix]
  refine ⟨_, hload, ?_, ?_⟩
  · intro k s hs
    refine ⟨{ s with expires := now + s.ttl }, ?_, rfl, rfl, rfl, rfl,
      fun x => Iff.rfl, fun x => Iff.rfl⟩
    show alookup k (st.sessions.map fun p => (p.1, { p.2 with expires := now + p.2.ttl }))
      = some { s with expires := now + s.ttl }
    rw [alookup_refreshMap, hs]
    rfl
  · intro rn r hr tn t ht
    refine ⟨t, ?_, rfl, rfl, rfl, rfl, rfl⟩
    show fetchTicketPtr (rn, tn) st.resources = some t
    rw [fetch_eq_of_rlookup_some hr]
    exact ht

def wSess7 : Session := ⟨"w", "s1", "a", 9, [("r", "foo")], [("r", "foo")], 42⟩
def wTick7 : Ticket := ⟨"foo", "r", [3, 1], some "s1", some "s1"⟩
def wSt7 : State := ⟨[("s1", wSess7)], [("r", ⟨"r", false, [("foo", wTick7)]⟩)]⟩

/-- Witness for C7 at a concrete consistent one-session state whose
ticket it both issued and claimed. -/
theorem c7_snapshot_round_trip_witness : RoundTripPreserves wSt7 100 :=
  c7_snapshot_round_trip wSt7 100
    ⟨by decide, ⟨by decide, by decide⟩, by decide, by decide, by decide,
     by decide, by decide, by decide⟩

/-! ### The inductive invariant of reachable states

Pointer reasoning: the engine compares sessions by pointer
(`t.Claimant == sess`); in every reachable state session ids are
pairwise distinct and every non-nil issuer/claimant reference was
written from a session stored in the map, so id equality is pointer
equality.  The two `Live` fields are the backbone: every ticket that
references a session by id is tracked, under its current
`(ResourceName, Name)` key, in that live session's back-reference
lists — which is exactly what `clearClaims` relies on. -/
structure Inv (st : State) : Prop where
  snodup : nodupKeys st.sessions
  swk : WellKeyedRes st.resources
  skeys : ∀ p ∈ st.sessions, p.2.id = p.1
  tkeys : ∀ p ∈ st.resources, ∀ q ∈ p.2.tickets, q.2.name = q.1 ∧ q.2.resourceName = p.1
  claimLive : ∀ rn r tn t c, alookup rn st.resources = some r →
    alookup tn r.tickets = some t → t.claimant = some c →
    ∃ s, alookup c st.sessions = some s ∧ (rn, tn) ∈ s.tickets
  issueLive : ∀ rn r tn t i, alookup rn st.resources = some r →
    alookup tn r.tickets = some t → t.issuer = some i →
    ∃ s, alookup i st.sessions = some s ∧ (rn, tn) ∈ s.issuances

theorem inv_empty : Inv State.empty := by
  constructor <;> intros <;> simp_all [State.empty, alookup, nodupKeys, WellKeyedRes]

theorem inv_open {st : State} (h : Inv st) {id : String}
    (hfresh : alookup id st.sessions = none) (name src : String) (ttl now : Nat) :
    Inv (openSession st id name src ttl now) := by
  constructor
  · exact nodupKeys_aupsert _ _ h.snodup
  · exact h.swk
  · intro p hp
    rcases mem_aupsert hp with h' | h'
    · rw [h']
    · exact h.skeys p h'
  · exact h.tkeys
  · intro rn r tn t c hr ht hc
    obtain ⟨s, hs, hmem⟩ := h.claimLive rn r tn t c hr ht hc
    have hcne : c ≠ id := by
      intro hh
      rw [hh, hfresh] at hs
      cases hs
    refine ⟨s, ?_, hmem⟩
    show alookup c (aupsert id _ st.sessions) = some s
    rw [alookup_aupsert_ne hcne]
    exact hs
  · intro rn r tn t i hr ht hi
    obtain ⟨s, hs, hmem⟩ := h.issueLive rn r tn t i hr ht hi
    have hine : i ≠ id := by
      intro hh
      rw [hh, hfresh] at hs
      cases hs
    refine ⟨s, ?_, hmem⟩
    show alookup i (aupsert id _ st.sessions) = some s
    rw [alookup_aupsert_ne hine]
    exact hs

theorem inv_refresh {st : State} (h : Inv st) (id : String) (now : Nat) :
    Inv (refreshS st id now) := by
  unfold refreshS refreshSession
  cases hs : alookup id st.sessions with
  | none => exact h
  | some s =>
    have hsid : s.id = id := h.skeys (id, s) (alookup_mem hs)
    constructor
    · exact nodupKeys_aupsert _ _ h.snodup
    · exact h.swk
    · intro p hp
      rcases mem_aupsert hp with h' | h'
      · rw [h']
        exact hsid
      · exact h.skeys p h'
    · exact h.tkeys
    · intro rn r tn t c hr ht hc
      obtain ⟨s', hs', hmem⟩ := h.claimLive rn r tn t c hr ht hc
      by_cases hcid : c = id
      · subst hcid
        rw [hs] at hs'
        cases hs'
        exact ⟨_, alookup_aupsert_self _ _ _, hmem⟩
      · exact ⟨s', by rw [alookup_aupsert_ne hcid]; exact hs', hmem⟩
    · intro rn r tn t i hr ht hi
      obtain ⟨s', hs', hmem⟩ := h.issueLive rn r tn t i hr ht hi
      by_cases hiid : i = id
      · subst hiid
        rw [hs] at hs'
        cases hs'
        exact ⟨_, alookup_aupsert_self _ _ _, hmem⟩
      · exact ⟨s', by rw [alookup_aupsert_ne hiid]; exact hs', hmem⟩

theorem mem_updTicketIn {q : String × Ticket} {tn : String} {f : Ticket → Ticket} :
    ∀ {l : List (String × Ticket)}, q ∈ updTicketIn tn f l →
    q ∈ l ∨ ∃ q1, q1 ∈ l ∧ q = (q1.1, f q1.2) := by
  intro l
  induction l with
  | nil => intro h; simp [updTicketIn] at h
  | cons q0 rest ih =>
    intro h
    obtain ⟨k0, t0⟩ := q0
    by_cases h0 : k0 = tn
    · simp only [updTicketIn, if_pos h0] at h
      rcases List.mem_cons.mp h with h' | h'
      · exact Or.inr ⟨(k0, t0), List.mem_cons_self _ _, h'⟩
      · exact Or.inl (List.mem_cons_of_mem _ h')
    · simp only [updTicketIn, if_neg h0] at h
      rcases List.mem_cons.mp h with h' | h'
      · exact Or.inl (h' ▸ List.mem_cons_self _ _)
      · rcases ih h' with h2 | ⟨q1, hq1, hq⟩
        · exact Or.inl (List.mem_cons_of_mem _ h2)
        · exact Or.inr ⟨q1, List.mem_cons_of_mem _ hq1, hq⟩

/-- `tkeys`-style key/field agreement, as a standalone predicate. -/
def TKeysOk (res : Resources) : Prop :=
  ∀ p ∈ res, ∀ q ∈ p.2.tickets, q.2.name = q.1 ∧ q.2.resourceName = p.1

theorem tkeysOk_updTicket {res : Resources} {key : TKey} {f : Ticket → Ticket}
    (hf : ∀ t, (f t).name = t.name ∧ (f t).resourceName = t.resourceName)
    (h : TKeysOk res) : TKeysOk (updTicket key f res) := by
  intro p hp q hq
  rcases mem_updTicket hp with h' | ⟨q0, hq0, hpq⟩
  · exact h p h' q hq
  · subst hpq
    rcases mem_updTicketIn hq with h2 | ⟨q1, hq1, hq2⟩
    · exact h q0 hq0 q h2
    · subst hq2
      obtain ⟨hn, hrn⟩ := h q0 hq0 q1 hq1
      exact ⟨(hf q1.2).1.trans hn, (hf q1.2).2.trans hrn⟩

theorem tkeysOk_clearClaimStep {res : Resources} (sid : String) (k : TKey)
    (h : TKeysOk res) : TKeysOk (clearClaimStep sid k res) := by
  cases hf : fetchTicketPtr k res with
  | none => rw [clearClaimStep_of_none hf]; exact h
  | some t0 =>
    rw [clearClaimStep_of_some hf]
    by_cases hc : t0.claimant = some sid
    · rw [if_pos hc]
      exact tkeysOk_updTicket (fun t => ⟨rfl, rfl⟩) h
    · rw [if_neg hc]
      exact h

theorem tkeysOk_clearIssueStep {res : Resources} (sid : String) (k : TKey)
    (h : TKeysOk res) : TKeysOk (clearIssueStep sid k res) := by
  cases hf : fetchTicketPtr k res with
  | none => rw [clearIssueStep_of_none hf]; exact h
  | some t0 =>
    rw [clearIssueStep_of_some hf]
    by_cases hc : t0.issuer = some sid
    · rw [if_pos hc]
      exact tkeysOk_updTicket (fun t => ⟨rfl, rfl⟩) h
    · rw [if_neg hc]
      exact h

theorem tkeysOk_clearClaimed (sid : String) :
    ∀ (ks : List TKey) {res : Resources}, TKeysOk res →
    TKeysOk (clearClaimed sid ks res) := by
  intro ks
  induction ks with
  | nil => intro res h; exact h
  | cons k0 ks ih => intro res h; exact ih (tkeysOk_clearClaimStep sid k0 h)

theorem tkeysOk_clearIssued (sid : String) :
    ∀ (ks : List TKey) {res : Resources}, TKeysOk res →
    TKeysOk (clearIssued sid ks res) := by
  intro ks
  induction ks with
  | nil => intro res h; exact h
  | cons k0 ks ih => intro res h; exact ih (tkeysOk_clearIssueStep sid k0 h)

theorem tkeysOk_clearClaims (s : Session) {res : Resources} (h : TKeysOk res) :
    TKeysOk (clearClaims s res) :=
  tkeysOk_clearIssued _ _ (tkeysOk_clearClaimed _ _ h)

theorem tkeysOk_fold (ss : List Session) :
    ∀ {res : Resources}, TKeysOk res →
    TKeysOk (ss.foldl (fun acc s => clearClaims s acc) res) := by
  induction ss with
  | nil => intro res h; exact h
  | cons s ss ih => intro res h; exact ih (tkeysOk_clearClaims s h)

theorem fetch_some_elim {k : TKey} {res : Resources} {t : Ticket}
    (h : fetchTicketPtr k res = some t) :
    ∃ r, alookup k.1 res = some r ∧ alookup k.2 r.tickets = some t := by
  cases hr : alookup k.1 res with
  | none => rw [fetch_eq_of_rlookup_none hr] at h; cases h
  | some r =>
    refine ⟨r, rfl, ?_⟩
    rw [← fetch_eq_of_rlookup_some hr]
    exact h

/-- Transfer a claimed-ticket back-reference across a session-map update
that touches only `sessId` and does not shrink its claimed list. -/
theorem transfer_claim {st : State} {NS : Sessions} {sessId : String}
    {sess sess2 : Session}
    (hs : alookup sessId st.sessions = some sess)
    (hself : alookup sessId NS = some sess2)
    (hother : ∀ c, c ≠ sessId → alookup c NS = alookup c st.sessions)
    (htick : ∀ x, x ∈ sess.tickets → x ∈ sess2.tickets) :
    ∀ c key, (∃ s', alookup c st.sessions = some s' ∧ key ∈ s'.tickets) →
    ∃ s'', alookup c NS = some s'' ∧ key ∈ s''.tickets := by
  intro c key ⟨s', hs', hmem⟩
  by_cases hc : c = sessId
  · subst hc
    rw [hs] at hs'
    cases hs'
    exact ⟨sess2, hself, htick _ hmem⟩
  · exact ⟨s', by rw [hother c hc]; exact hs', hmem⟩

/-- Issued-list analogue of `transfer_claim`. -/
theorem transfer_issue {st : State} {NS : Sessions} {sessId : String}
    {sess sess2 : Session}
    (hs : alookup sessId st.sessions = some sess)
    (hself : alookup sessId NS = some sess2)
    (hother : ∀ c, c ≠ sessId → alookup c NS = alookup c st.sessions)
    (hiss : ∀ x, x ∈ sess.issuances → x ∈ sess2.issuances) :
    ∀ i key, (∃ s', alookup i st.sessions = some s' ∧ key ∈ s'.issuances) →
    ∃ s'', alookup i NS = some s'' ∧ key ∈ s''.issuances := by
  intro i key ⟨s', hs', hmem⟩
  by_cases hc : i = sessId
  · subst hc
    rw [hs] at hs'
    cases hs'
    exact ⟨sess2, hself, hiss _ hmem⟩
  · exact ⟨s', by rw [hother i hc]; exact hs', hmem⟩

theorem mem_aerase {β : Type} {q : String × β} {k : String} {l : List (String × β)}
    (h : q ∈ aerase k l) : q ∈ l :=
  (aerase_sublist k l).mem h

theorem wellKeyedRes_sweep {res : Resources} (h : WellKeyedRes res) :
    WellKeyedRes (dropEmptyResources (sweepTickets res)) := by
  have hsw : WellKeyedRes (sweepTickets res) := by
    constructor
    · refine nodupKeys_of_fst_eq ?_ h.1
      rw [sweepTickets_eq_map]
      exact map_fst_map_values _ res
    · intro p hp
      obtain ⟨r0, hr0, hre⟩ := mem_sweepTickets hp
      have hnd : nodupKeys r0.tickets := h.2 (p.1, r0) hr0
      have hsub : (dropNullIssuers r0.tickets).Sublist r0.tickets := by
        rw [dropNullIssuers_eq_filter]
        exact List.filter_sublist _
      have h2 : p.2.tickets = dropNullIssuers r0.tickets := by rw [hre]
      rw [h2]
      exact nodupKeys_sublist hsub hnd
  constructor
  · exact nodupKeys_sublist (by rw [dropEmptyResources_eq_filter]; exact List.filter_sublist _) hsw.1
  · intro p hp
    exact hsw.2 p (mem_dropEmptyResources hp).2

theorem inv_close {st : State} (h : Inv st) (id : String) : Inv (closeS st id) := by
  unfold closeS closeSession
  cases hs : alookup id st.sessions with
  | none => exact h
  | some s =>
    have hsid : s.id = id := h.skeys (id, s) (alookup_mem hs)
    constructor
    · exact nodupKeys_aerase _ h.snodup
    · exact wellKeyedRes_clearClaims s h.swk
    · intro p hp
      exact h.skeys p (mem_aerase hp)
    · exact tkeysOk_clearClaims s h.tkeys
    · intro rn r tn t c hr ht hc
      have hft : fetchTicketPtr (rn, tn) (clearClaims s st.resources) = some t :=
        (fetch_eq_of_rlookup_some hr).trans ht
      obtain ⟨t0, hft0, hw⟩ := fetch_clearClaims_weaker hft
      have hc0 : t0.claimant = some c := by
        rcases hw.2.2.2.2 with h' | h'
        · rw [← h']; exact hc
        · rw [h'] at hc; cases hc
      obtain ⟨r0, hr0, ht0⟩ := fetch_some_elim hft0
      obtain ⟨s', hs', hmem⟩ := h.claimLive rn r0 tn t0 c hr0 ht0 hc0
      by_cases hcid : c = id
      · subst hcid
        rw [hs] at hs'
        cases hs'
        exact absurd hc (hsid ▸ clearClaims_claim_cleared hmem hft)
      · exact ⟨s', by rw [alookup_aerase_ne hcid]; exact hs', hmem⟩
    · intro rn r tn t i hr ht hi
      have hft : fetchTicketPtr (rn, tn) (clearClaims s st.resources) = some t :=
        (fetch_eq_of_rlookup_some hr).trans ht
      obtain ⟨t0, hft0, hw⟩ := fetch_clearClaims_weaker hft
      have hi0 : t0.issuer = some i := by
        rcases hw.2.2.2.1 with h' | h'
        · rw [← h']; exact hi
        · rw [h'] at hi; cases hi
      obtain ⟨r0, hr0, ht0⟩ := fetch_some_elim hft0
      obtain ⟨s', hs', hmem⟩ := h.issueLive rn r0 tn t0 i hr0 ht0 hi0
      by_cases hiid : i = id
      · subst hiid
        rw [hs] at hs'
        cases hs'
        exact absurd hi (hsid ▸ clearClaims_issue_cleared hmem hft)
      · exact ⟨s', by rw [alookup_aerase_ne hiid]; exact hs', hmem⟩

theorem inv_expire {st : State} (h : Inv st) (now : Nat) : Inv (expireS st now) := by
  have hwkc : WellKeyedRes
      ((expiredList now st.sessions).foldl (fun acc s => clearClaims s acc) st.resources) :=
    wellKeyedRes_fold _ h.swk
  have hres : (expireS st now).resources
      = dropEmptyResources (sweepTickets
          ((expiredList now st.sessions).foldl (fun acc s => clearClaims s acc) st.resources)) := rfl
  have hsess : (expireS st now).sessions = liveSessions now st.sessions := rfl
  have hlives : (liveSessions now st.sessions).Sublist st.sessions := by
    rw [liveSessions_eq_filter]
    exact List.filter_sublist _
  constructor
  · rw [hsess]
    exact nodupKeys_sublist hlives h.snodup
  · rw [hres]
    exact wellKeyedRes_sweep hwkc
  · intro p hp
    rw [hsess] at hp
    exact h.skeys p (hlives.mem hp)
  · intro p hp q hq
    rw [hres] at hp
    have hp2 := (mem_dropEmptyResources hp).2
    obtain ⟨r0, hr0, hre⟩ := mem_sweepTickets hp2
    have hq2 : q ∈ dropNullIssuers r0.tickets := by
      have : p.2.tickets = dropNullIssuers r0.tickets := by rw [hre]
      rw [← this]
      exact hq
    exact tkeysOk_fold _ h.tkeys (p.1, r0) hr0 q (mem_dropNullIssuers hq2).2
  · intro rn r tn t c hr ht hc
    rw [hres] at hr
    have hft' : fetchTicketPtr (rn, tn) (dropEmptyResources (sweepTickets
        ((expiredList now st.sessions).foldl (fun acc s => clearClaims s acc) st.resources)))
        = some t := (fetch_eq_of_rlookup_some hr).trans ht
    have hft1 := fetch_sweep hwkc hft'
    obtain ⟨t0, hft0, hw⟩ := fetch_fold_clearClaims_weaker _ _ hft1
    have hc0 : t0.claimant = some c := by
      rcases hw.2.2.2.2 with h' | h'
      · rw [← h']; exact hc
      · rw [h'] at hc; cases hc
    obtain ⟨r0, hr0, ht0⟩ := fetch_some_elim hft0
    obtain ⟨s', hs', hmem⟩ := h.claimLive rn r0 tn t0 c hr0 ht0 hc0
    have hsid : s'.id = c := h.skeys (c, s') (alookup_mem hs')
    by_cases hexp : s'.expires < now
    · exact absurd hc (hsid ▸ fold_clearClaims_claim_cleared _ _
        (mem_expiredList (alookup_mem hs') hexp) hmem hft1)
    · refine ⟨s', ?_, hmem⟩
      rw [hsess, liveSessions_eq_filter, alookup_filter _ h.snodup, hs']
      simp [hexp]
  · intro rn r tn t i hr ht hi
    rw [hres] at hr
    have hft' : fetchTicketPtr (rn, tn) (dropEmptyResources (sweepTickets
        ((expiredList now st.sessions).foldl (fun acc s => clearClaims s acc) st.resources)))
        = some t := (fetch_eq_of_rlookup_some hr).trans ht
    have hft1 := fetch_sweep hwkc hft'
    obtain ⟨t0, hft0, hw⟩ := fetch_fold_clearClaims_weaker _ _ hft1
    have hi0 : t0.issuer = some i := by
      rcases hw.2.2.2.1 with h' | h'
      · rw [← h']; exact hi
      · rw [h'] at hi; cases hi
    obtain ⟨r0, hr0, ht0⟩ := fetch_some_elim hft0
    obtain ⟨s', hs', hmem⟩ := h.issueLive rn r0 tn t0 i hr0 ht0 hi0
    have hsid : s'.id = i := h.skeys (i, s') (alookup_mem hs')
    by_cases hexp : s'.expires < now
    · exact absurd hi (hsid ▸ fold_clearClaims_issue_cleared _ _
        (mem_expiredList (alookup_mem hs') hexp) hmem hft1)
    · refine ⟨s', ?_, hmem⟩
      rw [hsess, liveSessions_eq_filter, alookup_filter _ h.snodup, hs']
      simp [hexp]

theorem inv_issuePerform {st : State} (h : Inv st) {sessId : String} {sess : Session}
    (hs : alookup sessId st.sessions = some sess)
    (resource name : String) (data : List Nat) (now : Nat) {r : Resource}
    (hrt : nodupKeys r.tickets)
    (hrk : ∀ q ∈ r.tickets, q.2.name = q.1 ∧ q.2.resourceName = resource)
    (hclaim : ∀ tn t c, alookup tn r.tickets = some t → t.claimant = some c →
      ∃ s', alookup c st.sessions = some s' ∧ ((resource, tn) : TKey) ∈ s'.tickets)
    (hissue : ∀ tn t i, alookup tn r.tickets = some t → t.issuer = some i →
      ∃ s', alookup i st.sessions = some s' ∧ ((resource, tn) : TKey) ∈ s'.issuances) :
    Inv (issuePerform ⟨aupsert sessId { sess with expires := now + sess.ttl } st.sessions,
      st.resources⟩ { sess with expires := now + sess.ttl } sessId resource name data r).2 := by
  have hsid : sess.id = sessId := h.skeys _ (alookup_mem hs)
  unfold issuePerform
  simp only
  constructor
  · exact nodupKeys_aupsert _ _ (nodupKeys_aupsert _ _ h.snodup)
  · constructor
    · exact nodupKeys_aupsert _ _ h.swk.1
    · intro p hp
      rcases mem_aupsert hp with h' | h'
      · rw [h']
        exact nodupKeys_aupsert _ _ hrt
      · exact h.swk.2 p h'
  · intro p hp
    rcases mem_aupsert hp with h' | h'
    · rw [h']
      exact hsid
    · rcases mem_aupsert h' with h2 | h2
      · rw [h2]
        exact hsid
      · exact h.skeys p h2
  · intro p hp q hq
    rcases mem_aupsert hp with h' | h'
    · have hq' : q ∈ aupsert name (match alookup name r.tickets with
        | some o => { newTicket name resource sess.id data with claimant := o.claimant }
        | none => newTicket name resource sess.id data) r.tickets := by
        rw [h'] at hq
        exact hq
      rcases mem_aupsert hq' with h2 | h2
      · rw [h2, h']
        cases alookup name r.tickets <;> exact ⟨rfl, rfl⟩
      · rw [h']
        exact hrk q h2
    · exact h.tkeys p h' q hq
  · intro rn' r' tn' tt c hr' ht' hc
    have htrans := transfer_claim hs
      (alookup_aupsert_self sessId ({ sess with expires := now + sess.ttl, issuances := ticketAddOrUpdate sess.issuances (resource, name) }) (aupsert sessId ({ sess with expires := now + sess.ttl }) st.sessions))
      (fun c' hc' => by rw [alookup_aupsert_ne hc', alookup_aupsert_ne hc'])
      (fun x hx => hx)
    by_cases hrn : rn' = resource
    · subst hrn
      rw [alookup_aupsert_self] at hr'
      cases hr'
      by_cases htn : tn' = name
      · subst htn
        rw [alookup_aupsert_self] at ht'
        cases ht'
        cases hold : alookup tn' r.tickets with
        | none =>
          rw [hold] at hc
          cases hc
        | some o =>
          rw [hold] at hc
          exact htrans c (rn', tn') (hclaim tn' o c hold hc)
      · rw [alookup_aupsert_ne htn] at ht'
        exact htrans c (rn', tn') (hclaim tn' tt c ht' hc)
    · rw [alookup_aupsert_ne hrn] at hr'
      exact htrans c (rn', tn') (h.claimLive rn' r' tn' tt c hr' ht' hc)
  · intro rn' r' tn' tt i hr' ht' hi
    have htrans := transfer_issue hs
      (alookup_aupsert_self sessId ({ sess with expires := now + sess.ttl, issuances := ticketAddOrUpdate sess.issuances (resource, name) }) (aupsert sessId ({ sess with expires := now + sess.ttl }) st.sessions))
      (fun c' hc' => by rw [alookup_aupsert_ne hc', alookup_aupsert_ne hc'])
      (fun x hx => (mem_ticketAddOrUpdate _ _ _).mpr (Or.inl hx))
    by_cases hrn : rn' = resource
    · subst hrn
      rw [alookup_aupsert_self] at hr'
      cases hr'
      by_cases htn : tn' = name
      · subst htn
        rw [alookup_aupsert_self] at ht'
        cases ht'
        have hti : (match alookup tn' r.tickets with
            | some o => { newTicket tn' rn' sess.id data with claimant := o.claimant }
            | none => newTicket tn' rn' sess.id data).issuer = some sess.id := by
          cases hold : alookup tn' r.tickets <;> simp [newTicket]
        rw [hti] at hi
        have hieq : i = sess.id := (Option.some.inj hi).symm
        refine ⟨({ sess with expires := now + sess.ttl, issuances := ticketAddOrUpdate sess.issuances (rn', tn') }), ?_, ?_⟩
        · rw [hieq, hsid]
          exact alookup_aupsert_self _ _ _
        · exact (mem_ticketAddOrUpdate _ _ _).mpr (Or.inr rfl)
      · rw [alookup_aupsert_ne htn] at ht'
        exact htrans i (rn', tn') (hissue tn' tt i ht' hi)
    · rw [alookup_aupsert_ne hrn] at hr'
      exact htrans i (rn', tn') (h.issueLive rn' r' tn' tt i hr' ht' hi)

theorem inv_issue {st : State} (h : Inv st) (sessId resource name : String)
    (data : List Nat) (now : Nat) : Inv (issueS st sessId resource name data now) := by
  cases hs : alookup sessId st.sessions with
  | none =>
    have heq : issueS st sessId resource name data now = st := by
      simp [issueS, issueTicket, hs]
    rw [heq]
    exact h
  | some sess =>
    cases hr : alookup resource st.resources with
    | some r =>
      cases hl : r.isLock with
      | true =>
        have heq : issueS st sessId resource name data now
            = ⟨aupsert sessId { sess with expires := now + sess.ttl } st.sessions,
               st.resources⟩ := by
          simp [issueS, issueTicket, hs, hr, hl]
        have heq2 : refreshS st sessId now
            = ⟨aupsert sessId { sess with expires := now + sess.ttl } st.sessions,
               st.resources⟩ := by
          simp [refreshS, refreshSession, hs]
        rw [heq, ← heq2]
        exact inv_refresh h sessId now
      | false =>
        have heq : issueS st sessId resource name data now
            = (issuePerform ⟨aupsert sessId { sess with expires := now + sess.ttl } st.sessions,
                st.resources⟩ { sess with expires := now + sess.ttl } sessId resource name data r).2 := by
          simp [issueS, issueTicket, hs, hr, hl]
        rw [heq]
        refine inv_issuePerform h hs resource name data now
          (h.swk.2 (resource, r) (alookup_mem hr))
          (fun q hq => h.tkeys (resource, r) (alookup_mem hr) q hq)
          (fun tn t c ht hc => h.claimLive resource r tn t c hr ht hc)
          (fun tn t i ht hi => h.issueLive resource r tn t i hr ht hi)
    | none =>
      have heq : issueS st sessId resource name data now
          = (issuePerform ⟨aupsert sessId { sess with expires := now + sess.ttl } st.sessions,
              st.resources⟩ { sess with expires := now + sess.ttl } sessId resource name data
              (newResource resource false)).2 := by
        simp [issueS, issueTicket, hs, hr]
      rw [heq]
      refine inv_issuePerform h hs resource name data now (by simp [newResource, nodupKeys])
        (fun q hq => by simp [newResource] at hq)
        (fun tn t c ht hc => by simp [newResource, alookup] at ht)
        (fun tn t i ht hi => by simp [newResource, alookup] at ht)

theorem alookup_decomp_ne {β : Type} {tn k : String} {x y : β} (hk : k ≠ tn) :
    ∀ (l1 : List (String × β)) (l2 : List (String × β)),
    alookup k (l1 ++ (tn, x) :: l2) = alookup k (l1 ++ (tn, y) :: l2) := by
  intro l1 l2
  induction l1 with
  | nil =>
    have htk : ¬ tn = k := fun hh => hk hh.symm
    simp [alookup, htk]
  | cons p rest ih =>
    obtain ⟨k0, v0⟩ := p
    by_cases h0 : k0 = k
    · simp [alookup, h0]
    · simp [alookup, h0, ih]

theorem inv_claim {st : State} (h : Inv st) (sessId resource : String) :
    Inv (claimS st sessId resource) := by
  cases hs : alookup sessId st.sessions with
  | none =>
    have heq : claimS st sessId resource = st := by simp [claimS, claimTicket, hs]
    rw [heq]; exact h
  | some sess =>
    cases hr : alookup resource st.resources with
    | none =>
      have heq : claimS st sessId resource = st := by simp [claimS, claimTicket, hs, hr]
      rw [heq]; exact h
    | some r =>
      cases hl : r.isLock with
      | true =>
        have heq : claimS st sessId resource = st := by simp [claimS, claimTicket, hs, hr, hl]
        rw [heq]; exact h
      | false =>
        cases hscan : claimScan sess.id r.tickets with
        | none =>
          have heq : claimS st sessId resource = st := by
            simp [claimS, claimTicket, hs, hr, hl, hscan]
          rw [heq]; exact h
        | some pr =>
          obtain ⟨ft, tickets'⟩ := pr
          have heq : claimS st sessId resource
              = ⟨aupsert sessId ({ sess with tickets := ticketAddOrUpdate sess.tickets (ft.resourceName, ft.name) }) st.sessions,
                 aupsert resource ({ r with tickets := tickets' }) st.resources⟩ := by
            simp [claimS, claimTicket, hs, hr, hl, hscan]
          rw [heq]
          obtain ⟨l1, tn, t, l2, hl12, hnone1, hcand, hft, hl'⟩ := claimScan_eq_some hscan
          have hndr : nodupKeys r.tickets := h.swk.2 _ (alookup_mem hr)
          have hfst : ∀ p ∈ l1, p.1 ≠ tn := nodupKeys_decomp_left (hl12 ▸ hndr)
          have hlook_t : alookup tn r.tickets = some t := by
            rw [hl12]; exact alookup_of_decomp hfst
          have htk := h.tkeys _ (alookup_mem hr) (tn, t) (alookup_mem hlook_t)
          have hsid : sess.id = sessId := h.skeys _ (alookup_mem hs)
          have hmem' : ∀ q, q ∈ tickets' → q ∈ r.tickets ∨ q = (tn, ft) := by
            intro q hq
            rw [hl'] at hq
            rcases List.mem_append.mp hq with h' | h'
            · exact Or.inl (by rw [hl12]; exact List.mem_append.mpr (Or.inl h'))
            · rcases List.mem_cons.mp h' with h2 | h2
              · exact Or.inr h2
              · exact Or.inl (by rw [hl12]; exact List.mem_append.mpr (Or.inr (List.mem_cons_of_mem _ h2)))
          have halook' : ∀ tn', alookup tn' tickets'
              = if tn' = tn then some ft else alookup tn' r.tickets := by
            intro tn'
            by_cases htn : tn' = tn
            · subst htn
              rw [if_pos rfl, hl']
              exact alookup_of_decomp hfst
            · rw [if_neg htn, hl12, hl']
              exact alookup_decomp_ne htn l1 l2
          have hftfields : ft.name = tn ∧ ft.resourceName = resource ∧
              ft.issuer = t.issuer ∧ ft.claimant = some sess.id := by
            rw [hft]
            exact ⟨htk.1, htk.2, rfl, rfl⟩
          have htrans_c := transfer_claim hs
            (alookup_aupsert_self sessId ({ sess with tickets := ticketAddOrUpdate sess.tickets (ft.resourceName, ft.name) }) st.sessions)
            (fun c' hc' => by rw [alookup_aupsert_ne hc'])
            (fun x hx => (mem_ticketAddOrUpdate _ _ _).mpr (Or.inl hx))
          have htrans_i := transfer_issue hs
            (alookup_aupsert_self sessId ({ sess with tickets := ticketAddOrUpdate sess.tickets (ft.resourceName, ft.name) }) st.sessions)
            (fun c' hc' => by rw [alookup_aupsert_ne hc'])
            (fun x hx => hx)
          constructor
          · exact nodupKeys_aupsert _ _ h.snodup
          · constructor
            · exact nodupKeys_aupsert _ _ h.swk.1
            · intro p hp
              rcases mem_aupsert hp with h' | h'
              · rw [h']
                refine nodupKeys_of_fst_eq ?_ hndr
                rw [hl12, hl']
                simp
              · exact h.swk.2 p h'
          · intro p hp
            rcases mem_aupsert hp with h' | h'
            · rw [h']
              exact hsid
            · exact h.skeys p h'
          · intro p hp q hq
            rcases mem_aupsert hp with h' | h'
            · have hq' : q ∈ tickets' := by
                rw [h'] at hq
                exact hq
              rcases hmem' q hq' with h2 | h2
              · rw [h']
                exact h.tkeys _ (alookup_mem hr) q h2
              · rw [h', h2]
                exact ⟨hftfields.1, hftfields.2.1⟩
            · exact h.tkeys p h' q hq
          · intro rn' r' tn' tt c hr' ht' hc
            by_cases hrn : rn' = resource
            · subst hrn
              rw [alookup_aupsert_self] at hr'
              cases hr'
              rw [halook'] at ht'
              by_cases htn : tn' = tn
              · rw [if_pos htn] at ht'
                cases ht'
                have hceq : c = sessId := by
                  rw [hftfields.2.2.2] at hc
                  rw [← (Option.some.inj hc), hsid]
                subst hceq
                refine ⟨_, alookup_aupsert_self _ _ _, ?_⟩
                rw [htn]
                refine (mem_ticketAddOrUpdate _ _ _).mpr (Or.inr ?_)
                rw [hftfields.1, hftfields.2.1]
              · rw [if_neg htn] at ht'
                exact htrans_c c (rn', tn') (h.claimLive rn' r tn' tt c hr ht' hc)
            · rw [alookup_aupsert_ne hrn] at hr'
              exact htrans_c c (rn', tn') (h.claimLive rn' r' tn' tt c hr' ht' hc)
          · intro rn' r' tn' tt i hr' ht' hi
            by_cases hrn : rn' = resource
            · subst hrn
              rw [alookup_aupsert_self] at hr'
              cases hr'
              rw [halook'] at ht'
              by_cases htn : tn' = tn
              · rw [if_pos htn] at ht'
                cases ht'
                have hti : t.issuer = some i := by
                  rw [← hftfields.2.2.1]
                  exact hi
                have := h.issueLive rn' r tn t i hr hlook_t hti
                rw [htn]
                exact htrans_i i (rn', tn) this
              · rw [if_neg htn] at ht'
                exact htrans_i i (rn', tn') (h.issueLive rn' r tn' tt i hr ht' hi)
            · rw [alookup_aupsert_ne hrn] at hr'
              exact htrans_i i (rn', tn') (h.issueLive rn' r' tn' tt i hr' ht' hi)

theorem inv_revoke {st : State} (h : Inv st) (sessId resource name : String) :
    Inv (revokeS st sessId resource name) := by
  cases hs : alookup sessId st.sessions with
  | none =>
    have heq : revokeS st sessId resource name = st := by simp [revokeS, revokeTicket, hs]
    rw [heq]; exact h
  | some sess =>
    cases hr : alookup resource st.resources with
    | none =>
      have heq : revokeS st sessId resource name = st := by simp [revokeS, revokeTicket, hs, hr]
      rw [heq]; exact h
    | some r =>
      cases htk : alookup name r.tickets with
      | none =>
        have heq : revokeS st sessId resource name = st := by
          simp [revokeS, revokeTicket, hs, hr, htk]
        rw [heq]; exact h
      | some tick =>
        have heq : revokeS st sessId resource name
            = ⟨aupsert sessId ({ sess with issuances := ticketRemove sess.issuances (tick.resourceName, tick.name) }) st.sessions,
               aupsert resource ({ r with tickets := aerase name r.tickets }) st.resources⟩ := by
          simp [revokeS, revokeTicket, hs, hr, htk]
        rw [heq]
        have hsid : sess.id = sessId := h.skeys _ (alookup_mem hs)
        have htkk := h.tkeys _ (alookup_mem hr) (name, tick) (alookup_mem htk)
        have hkey : (tick.resourceName, tick.name) = ((resource, name) : TKey) := by
          rw [htkk.1, htkk.2]
        have htrans_c := transfer_claim hs
          (alookup_aupsert_self sessId ({ sess with issuances := ticketRemove sess.issuances (tick.resourceName, tick.name) }) st.sessions)
          (fun c' hc' => by rw [alookup_aupsert_ne hc'])
          (fun x hx => hx)
        constructor
        · exact nodupKeys_aupsert _ _ h.snodup
        · constructor
          · exact nodupKeys_aupsert _ _ h.swk.1
          · intro p hp
            rcases mem_aupsert hp with h' | h'
            · rw [h']
              exact nodupKeys_sublist (aerase_sublist _ _) (h.swk.2 _ (alookup_mem hr))
            · exact h.swk.2 p h'
        · intro p hp
          rcases mem_aupsert hp with h' | h'
          · rw [h']
            exact hsid
          · exact h.skeys p h'
        · intro p hp q hq
          rcases mem_aupsert hp with h' | h'
          · have hq' : q ∈ aerase name r.tickets := by
              rw [h'] at hq
              exact hq
            rw [h']
            exact h.tkeys _ (alookup_mem hr) q (mem_aerase hq')
          · exact h.tkeys p h' q hq
        · intro rn' r' tn' tt c hr' ht' hc
          by_cases hrn : rn' = resource
          · subst hrn
            rw [alookup_aupsert_self] at hr'
            cases hr'
            by_cases htn : tn' = name
            · subst htn
              rw [alookup_aerase_self] at ht'
              cases ht'
            · rw [alookup_aerase_ne htn] at ht'
              exact htrans_c c (rn', tn') (h.claimLive rn' r tn' tt c hr ht' hc)
          · rw [alookup_aupsert_ne hrn] at hr'
            exact htrans_c c (rn', tn') (h.claimLive rn' r' tn' tt c hr' ht' hc)
        · intro rn' r' tn' tt i hr' ht' hi
          have hmain : ∃ s', alookup i st.sessions = some s' ∧ ((rn', tn') : TKey) ∈ s'.issuances ∧
              ((rn', tn') : TKey) ≠ (resource, name) := by
            by_cases hrn : rn' = resource
            · subst hrn
              rw [alookup_aupsert_self] at hr'
              cases hr'
              by_cases htn : tn' = name
              · subst htn
                rw [alookup_aerase_self] at ht'
                cases ht'
              · rw [alookup_aerase_ne htn] at ht'
                obtain ⟨s', hs', hm⟩ := h.issueLive rn' r tn' tt i hr ht' hi
                exact ⟨s', hs', hm, by simp [htn]⟩
            · rw [alookup_aupsert_ne hrn] at hr'
              obtain ⟨s', hs', hm⟩ := h.issueLive rn' r' tn' tt i hr' ht' hi
              exact ⟨s', hs', hm, by simp [hrn]⟩
          obtain ⟨s', hs', hm, hne⟩ := hmain
          by_cases hieq : i = sessId
          · subst hieq
            rw [hs] at hs'
            cases hs'
            refine ⟨_, alookup_aupsert_self _ _ _, ?_⟩
            rw [hkey]
            exact mem_ticketRemove_of_ne hne hm
          · exact ⟨s', by rw [alookup_aupsert_ne hieq]; exact hs', hm⟩

theorem inv_release {st : State} (h : Inv st) (sessId resource name : String) :
    Inv (releaseS st sessId resource name) := by
  cases hs : alookup sessId st.sessions with
  | none =>
    have heq : releaseS st sessId resource name = st := by simp [releaseS, releaseTicket, hs]
    rw [heq]; exact h
  | some sess =>
    cases hr : alookup resource st.resources with
    | none =>
      have heq : releaseS st sessId resource name = st := by simp [releaseS, releaseTicket, hs, hr]
      rw [heq]; exact h
    | some r =>
      cases htk : alookup name r.tickets with
      | none =>
        have heq : releaseS st sessId resource name = st := by
          simp [releaseS, releaseTicket, hs, hr, htk]
        rw [heq]; exact h
      | some t =>
        by_cases hcl : t.claimant = some sess.id
        case neg =>
          have heq : releaseS st sessId resource name = st := by
            simp [releaseS, releaseTicket, hs, hr, htk, hcl]
          rw [heq]; exact h
        case pos =>
        have heq : releaseS st sessId resource name
            = ⟨aupsert sessId ({ sess with tickets := ticketRemove sess.tickets (t.resourceName, t.name) }) st.sessions,
               aupsert resource ({ r with tickets := updTicketIn name (fun u => { u with claimant := none }) r.tickets }) st.resources⟩ := by
          simp [releaseS, releaseTicket, hs, hr, htk, hcl]
        rw [heq]
        have hsid : sess.id = sessId := h.skeys _ (alookup_mem hs)
        have htkk := h.tkeys _ (alookup_mem hr) (name, t) (alookup_mem htk)
        have hkey : (t.resourceName, t.name) = ((resource, name) : TKey) := by
          rw [htkk.1, htkk.2]
        have htrans_i := transfer_issue hs
          (alookup_aupsert_self sessId ({ sess with tickets := ticketRemove sess.tickets (t.resourceName, t.name) }) st.sessions)
          (fun c' hc' => by rw [alookup_aupsert_ne hc'])
          (fun x hx => hx)
        constructor
        · exact nodupKeys_aupsert _ _ h.snodup
        · constructor
          · exact nodupKeys_aupsert _ _ h.swk.1
          · intro p hp
            rcases mem_aupsert hp with h' | h'
            · rw [h']
              exact nodupKeys_of_fst_eq (updTicketIn_map_fst _ _ _) (h.swk.2 _ (alookup_mem hr))
            · exact h.swk.2 p h'
        · intro p hp
          rcases mem_aupsert hp with h' | h'
          · rw [h']
            exact hsid
          · exact h.skeys p h'
        · intro p hp q hq
          rcases mem_aupsert hp with h' | h'
          · have hq' : q ∈ updTicketIn name (fun u => { u with claimant := none }) r.tickets := by
              rw [h'] at hq
              exact hq
            rw [h']
            rcases mem_updTicketIn hq' with h2 | ⟨q1, hq1, hq2⟩
            · exact h.tkeys _ (alookup_mem hr) q h2
            · rw [hq2]
              exact h.tkeys _ (alookup_mem hr) q1 hq1
          · exact h.tkeys p h' q hq
        · intro rn' r' tn' tt c hr' ht' hc
          have hmain : ∃ s', alookup c st.sessions = some s' ∧ ((rn', tn') : TKey) ∈ s'.tickets ∧
              ((rn', tn') : TKey) ≠ (resource, name) := by
            by_cases hrn : rn' = resource
            · subst hrn
              rw [alookup_aupsert_self] at hr'
              cases hr'
              rw [alookup_updTicketIn] at ht'
              by_cases htn : tn' = name
              · subst htn
                rw [if_pos rfl, htk] at ht'
                simp only [Option.map_some', Option.some.injEq] at ht'
                rw [← ht'] at hc
                cases hc
              · rw [if_neg htn] at ht'
                obtain ⟨s', hs', hm⟩ := h.claimLive rn' r tn' tt c hr ht' hc
                exact ⟨s', hs', hm, by simp [htn]⟩
            · rw [alookup_aupsert_ne hrn] at hr'
              obtain ⟨s', hs', hm⟩ := h.claimLive rn' r' tn' tt c hr' ht' hc
              exact ⟨s', hs', hm, by simp [hrn]⟩
          obtain ⟨s', hs', hm, hne⟩ := hmain
          by_cases hceq : c = sessId
          · subst hceq
            rw [hs] at hs'
            cases hs'
            refine ⟨_, alookup_aupsert_self _ _ _, ?_⟩
            rw [hkey]
            exact mem_ticketRemove_of_ne hne hm
          · exact ⟨s', by rw [alookup_aupsert_ne hceq]; exact hs', hm⟩
        · intro rn' r' tn' tt i hr' ht' hi
          by_cases hrn : rn' = resource
          · subst hrn
            rw [alookup_aupsert_self] at hr'
            cases hr'
            rw [alookup_updTicketIn] at ht'
            by_cases htn : tn' = name
            · subst htn
              rw [if_pos rfl, htk] at ht'
              simp only [Option.map_some', Option.some.injEq] at ht'
              have hti : t.issuer = some i := by
                rw [← ht'] at hi
                exact hi
              exact htrans_i i (rn', tn') (h.issueLive rn' r tn' t i hr htk hti)
            · rw [if_neg htn] at ht'
              exact htrans_i i (rn', tn') (h.issueLive rn' r tn' tt i hr ht' hi)
          · rw [alookup_aupsert_ne hrn] at hr'
            exact htrans_i i (rn', tn') (h.issueLive rn' r' tn' tt i hr' ht' hi)

theorem aupsert_aupsert_same {β : Type} (k : String) (v w : β) :
    ∀ (l : List (String × β)), aupsert k v (aupsert k w l) = aupsert k v l := by
  intro l
  induction l with
  | nil => simp [aupsert]
  | cons p t ih =>
    obtain ⟨k0, v0⟩ := p
    by_cases h0 : k0 = k
    · simp [aupsert, h0]
    · simp [aupsert, h0, ih]

theorem inv_lockCreate {st : State} (h : Inv st) {sessId resource : String}
    {sess : Session} {r : Resource}
    (hs : alookup sessId st.sessions = some sess) (hrt : r.tickets = []) :
    Inv ⟨aupsert sessId ({ sess with issuances := ticketAddOrUpdate sess.issuances (resource, resource) }) st.sessions,
         aupsert resource ({ r with tickets := aupsert resource (newTicket resource resource sess.id []) r.tickets }) st.resources⟩ := by
  have hsid : sess.id = sessId := h.skeys _ (alookup_mem hs)
  have hsingle : aupsert resource (newTicket resource resource sess.id []) r.tickets
      = [(resource, newTicket resource resource sess.id [])] := by
    rw [hrt]
    rfl
  have htrans_c := transfer_claim hs
    (alookup_aupsert_self sessId ({ sess with issuances := ticketAddOrUpdate sess.issuances (resource, resource) }) st.sessions)
    (fun c' hc' => by rw [alookup_aupsert_ne hc'])
    (fun x hx => hx)
  have htrans_i := transfer_issue hs
    (alookup_aupsert_self sessId ({ sess with issuances := ticketAddOrUpdate sess.issuances (resource, resource) }) st.sessions)
    (fun c' hc' => by rw [alookup_aupsert_ne hc'])
    (fun x hx => (mem_ticketAddOrUpdate _ _ _).mpr (Or.inl hx))
  constructor
  · exact nodupKeys_aupsert _ _ h.snodup
  · constructor
    · exact nodupKeys_aupsert _ _ h.swk.1
    · intro p hp
      rcases mem_aupsert hp with h' | h'
      · rw [h', hsingle]
        simp [nodupKeys]
      · exact h.swk.2 p h'
  · intro p hp
    rcases mem_aupsert hp with h' | h'
    · rw [h']
      exact hsid
    · exact h.skeys p h'
  · intro p hp q hq
    rcases mem_aupsert hp with h' | h'
    · have hq' : q ∈ [(resource, newTicket resource resource sess.id [])] := by
        rw [h', hsingle] at hq
        exact hq
      rcases List.mem_cons.mp hq' with h2 | h2
      · rw [h', h2]
        exact ⟨rfl, rfl⟩
      · simp at h2
    · exact h.tkeys p h' q hq
  · intro rn' r' tn' tt c hr' ht' hc
    by_cases hrn : rn' = resource
    · subst hrn
      rw [alookup_aupsert_self] at hr'
      cases hr'
      rw [hsingle] at ht'
      by_cases htn : tn' = rn'
      · rw [show alookup tn' [(rn', newTicket rn' rn' sess.id [])]
            = some (newTicket rn' rn' sess.id []) from by rw [htn]; simp [alookup]] at ht'
        cases ht'
        cases hc
      · have hne : rn' ≠ tn' := fun hh => htn hh.symm
        rw [show alookup tn' [(rn', newTicket rn' rn' sess.id [])] = none from by
            simp [alookup, hne]] at ht'
        cases ht'
    · rw [alookup_aupsert_ne hrn] at hr'
      exact htrans_c c (rn', tn') (h.claimLive rn' r' tn' tt c hr' ht' hc)
  · intro rn' r' tn' tt i hr' ht' hi
    by_cases hrn : rn' = resource
    · subst hrn
      rw [alookup_aupsert_self] at hr'
      cases hr'
      rw [hsingle] at ht'
      by_cases htn : tn' = rn'
      · rw [show alookup tn' [(rn', newTicket rn' rn' sess.id [])]
            = some (newTicket rn' rn' sess.id []) from by rw [htn]; simp [alookup]] at ht'
        cases ht'
        have hieq : i = sess.id := by
          exact (Option.some.inj hi).symm
        refine ⟨({ sess with issuances := ticketAddOrUpdate sess.issuances (rn', rn') }), ?_, ?_⟩
        · rw [hieq, hsid]
          exact alookup_aupsert_self _ _ _
        · rw [htn]
          exact (mem_ticketAddOrUpdate _ _ _).mpr (Or.inr rfl)
      · have hne : rn' ≠ tn' := fun hh => htn hh.symm
        rw [show alookup tn' [(rn', newTicket rn' rn' sess.id [])] = none from by
            simp [alookup, hne]] at ht'
        cases ht'
    · rw [alookup_aupsert_ne hrn] at hr'
      exact htrans_i i (rn', tn') (h.issueLive rn' r' tn' tt i hr' ht' hi)

theorem inv_lock {st : State} (h : Inv st) (sessId resource : String) :
    Inv (lockS st sessId resource) := by
  cases hs : alookup sessId st.sessions with
  | none =>
    have heq : lockS st sessId resource = st := by simp [lockS, lock, hs]
    rw [heq]; exact h
  | some sess =>
    cases hr : alookup resource st.resources with
    | some r =>
      cases hl : r.isLock with
      | false =>
        have heq : lockS st sessId resource = st := by simp [lockS, lock, hs, hr, hl]
        rw [heq]; exact h
      | true =>
        by_cases hm : r.tickets.length > 1 ∨ (r.tickets.length = 1 ∧ alookup resource r.tickets = none)
        · have heq : lockS st sessId resource = st := by
            simp only [lockS, lock, lockWith, hs, hr, hl]
            rw [if_pos trivial, if_pos hm]
          rw [heq]; exact h
        · cases htk : alookup resource r.tickets with
          | none =>
            have hrt : r.tickets = [] := by
              rcases Nat.lt_or_ge r.tickets.length 1 with h1 | h1
              · exact List.length_eq_zero.mp (by omega)
              · exfalso
                apply hm
                rcases Nat.lt_or_ge 1 r.tickets.length with h2 | h2
                · exact Or.inl h2
                · exact Or.inr ⟨by omega, htk⟩
            have heq : lockS st sessId resource
                = ⟨aupsert sessId ({ sess with issuances := ticketAddOrUpdate sess.issuances (resource, resource) }) st.sessions,
                   aupsert resource ({ r with tickets := aupsert resource (newTicket resource resource sess.id []) r.tickets }) st.resources⟩ := by
              simp only [lockS, lock, lockWith, hs, hr, hl]
              rw [if_pos trivial, if_neg hm, htk]
            rw [heq]
            exact inv_lockCreate h hs hrt
          | some t =>
            cases hti : t.issuer with
            | none =>
              have heq : lockS st sessId resource = State.empty := by
                simp only [lockS, lock, lockWith, hs, hr, hl]
                rw [if_pos trivial, if_neg hm]
                simp only [htk, hti]
              rw [heq]
              exact inv_empty
            | some iid =>
              by_cases hid : iid = sess.id
              · have heq : lockS st sessId resource = st := by
                  simp only [lockS, lock, lockWith, hs, hr, hl]
                  rw [if_pos trivial, if_neg hm]
                  simp only [htk, hti, if_pos hid]
                rw [heq]; exact h
              · have heq : lockS st sessId resource = st := by
                  simp only [lockS, lock, lockWith, hs, hr, hl]
                  rw [if_pos trivial, if_neg hm]
                  simp only [htk, hti, if_neg hid]
                rw [heq]; exact h
    | none =>
      have heq : lockS st sessId resource
          = ⟨aupsert sessId ({ sess with issuances := ticketAddOrUpdate sess.issuances (resource, resource) }) st.sessions,
             aupsert resource ({ newResource resource true with tickets := aupsert resource (newTicket resource resource sess.id []) (newResource resource true).tickets })
               (aupsert resource (newResource resource true) st.resources)⟩ := by
        simp [lockS, lock, lockWith, hs, hr, newResource, alookup]
      rw [heq]
      rw [show (⟨aupsert sessId ({ sess with issuances := ticketAddOrUpdate sess.issuances (resource, resource) }) st.sessions,
             aupsert resource ({ newResource resource true with tickets := aupsert resource (newTicket resource resource sess.id []) (newResource resource true).tickets })
               (aupsert resource (newResource resource true) st.resources)⟩ : State)
          = ⟨aupsert sessId ({ sess with issuances := ticketAddOrUpdate sess.issuances (resource, resource) }) st.sessions,
             aupsert resource ({ newResource resource true with tickets := aupsert resource (newTicket resource resource sess.id []) (newResource resource true).tickets })
               st.resources⟩ from by rw [aupsert_aupsert_same]]
      exact inv_lockCreate h hs rfl

theorem inv_unlock {st : State} (h : Inv st) (sessId resource : String) :
    Inv (unlockS st sessId resource) := by
  cases hs : alookup sessId st.sessions with
  | none =>
    have heq : unlockS st sessId resource = st := by simp [unlockS, unlock, hs]
    rw [heq]; exact h
  | some sess =>
    cases hr : alookup resource st.resources with
    | none =>
      have heq : unlockS st sessId resource = st := by simp [unlockS, unlock, hs, hr]
      rw [heq]; exact h
    | some r =>
      cases hl : r.isLock with
      | false =>
        have heq : unlockS st sessId resource = st := by simp [unlockS, unlock, hs, hr, hl]
        rw [heq]; exact h
      | true =>
        cases htk : alookup resource r.tickets with
        | none =>
          have heq : unlockS st sessId resource = st := by simp [unlockS, unlock, hs, hr, hl, htk]
          rw [heq]; exact h
        | some t =>
          cases hti : t.issuer with
          | none =>
            have heq : unlockS st sessId resource = State.empty := by
              simp [unlockS, unlock, hs, hr, hl, htk, hti]
            rw [heq]
            exact inv_empty
          | some iid =>
            by_cases hid : iid = sess.id
            case neg =>
              have heq : unlockS st sessId resource = st := by
                simp [unlockS, unlock, hs, hr, hl, htk, hti, hid]
              rw [heq]; exact h
            case pos =>
            have heq : unlockS st sessId resource
                = ⟨aupsert sessId ({ sess with issuances := ticketRemove sess.issuances (t.resourceName, t.name) }) st.sessions,
                   aupsert resource ({ r with tickets := aerase t.name r.tickets }) st.resources⟩ := by
              simp [unlockS, unlock, hs, hr, hl, htk, hti, hid]
            rw [heq]
            have hsid : sess.id = sessId := h.skeys _ (alookup_mem hs)
            have htkk := h.tkeys _ (alookup_mem hr) (resource, t) (alookup_mem htk)
            have hname : t.name = resource := htkk.1
            have hkey : (t.resourceName, t.name) = ((resource, resource) : TKey) := by
              rw [htkk.1, htkk.2]
            have htrans_c := transfer_claim hs
              (alookup_aupsert_self sessId ({ sess with issuances := ticketRemove sess.issuances (t.resourceName, t.name) }) st.sessions)
              (fun c' hc' => by rw [alookup_aupsert_ne hc'])
              (fun x hx => hx)
            constructor
            · exact nodupKeys_aupsert _ _ h.snodup
            · constructor
              · exact nodupKeys_aupsert _ _ h.swk.1
              · intro p hp
                rcases mem_aupsert hp with h' | h'
                · rw [h']
                  exact nodupKeys_sublist (aerase_sublist _ _) (h.swk.2 _ (alookup_mem hr))
                · exact h.swk.2 p h'
            · intro p hp
              rcases mem_aupsert hp with h' | h'
              · rw [h']
                exact hsid
              · exact h.skeys p h'
            · intro p hp q hq
              rcases mem_aupsert hp with h' | h'
              · have hq' : q ∈ aerase t.name r.tickets := by
                  rw [h'] at hq
                  exact hq
                rw [h']
                exact h.tkeys _ (alookup_mem hr) q (mem_aerase hq')
              · exact h.tkeys p h' q hq
            · intro rn' r' tn' tt c hr' ht' hc
              by_cases hrn : rn' = resource
              · subst hrn
                rw [alookup_aupsert_self] at hr'
                cases hr'
                by_cases htn : tn' = t.name
                · subst htn
                  rw [alookup_aerase_self] at ht'
                  cases ht'
                · rw [alookup_aerase_ne htn] at ht'
                  exact htrans_c c (rn', tn') (h.claimLive rn' r tn' tt c hr ht' hc)
              · rw [alookup_aupsert_ne hrn] at hr'
                exact htrans_c c (rn', tn') (h.claimLive rn' r' tn' tt c hr' ht' hc)
            · intro rn' r' tn' tt i hr' ht' hi
              have hmain : ∃ s', alookup i st.sessions = some s' ∧ ((rn', tn') : TKey) ∈ s'.issuances ∧
                  ((rn', tn') : TKey) ≠ (resource, resource) := by
                by_cases hrn : rn' = resource
                · subst hrn
                  rw [alookup_aupsert_self] at hr'
                  cases hr'
                  by_cases htn : tn' = t.name
                  · subst htn
                    rw [alookup_aerase_self] at ht'
                    cases ht'
                  · rw [alookup_aerase_ne htn] at ht'
                    obtain ⟨s', hs', hm⟩ := h.issueLive rn' r tn' tt i hr ht' hi
                    refine ⟨s', hs', hm, ?_⟩
                    intro hh
                    apply htn
                    rw [hname]
                    exact congrArg Prod.snd hh
                · rw [alookup_aupsert_ne hrn] at hr'
                  obtain ⟨s', hs', hm⟩ := h.issueLive rn' r' tn' tt i hr' ht' hi
                  exact ⟨s', hs', hm, by simp [hrn]⟩
              obtain ⟨s', hs', hm, hne⟩ := hmain
              by_cases hieq : i = sessId
              · subst hieq
                rw [hs] at hs'
                cases hs'
                refine ⟨_, alookup_aupsert_self _ _ _, ?_⟩
                rw [hkey]
                exact mem_ticketRemove_of_ne hne hm
              · exact ⟨s', by rw [alookup_aupsert_ne hieq]; exact hs', hm⟩

/-- Every state reachable from the empty daemon state satisfies the invariant. -/
theorem reachable_inv {st : State} (h : Reachable st) : Inv st := by
  induction h with
  | empty => exact inv_empty
  | openStep _ hfresh ih => exact inv_open ih hfresh _ _ _ _
  | closeStep _ ih => exact inv_close ih _
  | refreshStep _ ih => exact inv_refresh ih _ _
  | issueStep _ ih => exact inv_issue ih _ _ _ _ _
  | revokeStep _ ih => exact inv_revoke ih _ _ _
  | claimStep _ ih => exact inv_claim ih _ _
  | releaseStep _ ih => exact inv_release ih _ _ _
  | lockStep _ ih => exact inv_lock ih _ _
  | unlockStep _ ih => exact inv_unlock ih _ _
  | expireStep _ ih => exact inv_expire ih _

/-! ### C4: no dangling session references after close or expiry -/

/-- **C4.** In a reachable state where session `sid` exists (so `CloseSession`
succeeds), no ticket stored in any resource of the post-`CloseSession` state has
`sid` as issuer or claimant; likewise for the post-sweep state once the
session's deadline has passed. -/
theorem c4_no_refs_after_close_or_expire {st : State} (hreach : Reachable st)
    {sid : String} {sess : Session} (hs : alookup sid st.sessions = some sess)
    (k : TKey) (t : Ticket) (now : Nat) :
    (fetchTicketPtr k (closeS st sid).resources = some t →
        t.issuer ≠ some sid ∧ t.claimant ≠ some sid) ∧
    (sess.expires < now →
        fetchTicketPtr k (expireS st now).resources = some t →
        t.issuer ≠ some sid ∧ t.claimant ≠ some sid) := by
  obtain ⟨rn, tn⟩ := k
  have hinv := reachable_inv hreach
  have hsid : sess.id = sid := hinv.skeys _ (alookup_mem hs)
  constructor
  · intro ht
    have hres : (closeS st sid).resources = clearClaims sess st.resources := by
      simp [closeS, closeSession, hs]
    rw [hres] at ht
    obtain ⟨t0, ht0, hw⟩ := fetch_clearClaims_weaker ht
    obtain ⟨r0, hr0, htk0⟩ := fetch_some_elim ht0
    constructor
    · intro hbad
      have hiss0 : t0.issuer = some sid := by
        rcases hw.2.2.2.1 with h' | h'
        · rw [h'] at hbad; exact hbad
        · rw [h'] at hbad; cases hbad
      obtain ⟨s', hs', hm⟩ := hinv.issueLive rn r0 tn t0 sid hr0 htk0 hiss0
      rw [hs] at hs'
      cases hs'
      have := clearClaims_issue_cleared hm ht
      rw [hsid] at this
      exact this hbad
    · intro hbad
      have hcl0 : t0.claimant = some sid := by
        rcases hw.2.2.2.2 with h' | h'
        · rw [h'] at hbad; exact hbad
        · rw [h'] at hbad; cases hbad
      obtain ⟨s', hs', hm⟩ := hinv.claimLive rn r0 tn t0 sid hr0 htk0 hcl0
      rw [hs] at hs'
      cases hs'
      have := clearClaims_claim_cleared hm ht
      rw [hsid] at this
      exact this hbad
  · intro hexp ht
    have hres : (expireS st now).resources
        = dropEmptyResources (sweepTickets
            ((expiredList now st.sessions).foldl (fun acc s => clearClaims s acc) st.resources)) := by
      simp [expireS, expireSessions]
    rw [hres] at ht
    have ht1 := fetch_sweep (wellKeyedRes_fold _ hinv.swk) ht
    have hmemexp : sess ∈ expiredList now st.sessions :=
      mem_expiredList (alookup_mem hs) hexp
    obtain ⟨t0, ht0, hw⟩ := fetch_fold_clearClaims_weaker _ _ ht1
    obtain ⟨r0, hr0, htk0⟩ := fetch_some_elim ht0
    constructor
    · intro hbad
      have hiss0 : t0.issuer = some sid := by
        rcases hw.2.2.2.1 with h' | h'
        · rw [h'] at hbad; exact hbad
        · rw [h'] at hbad; cases hbad
      obtain ⟨s', hs', hm⟩ := hinv.issueLive rn r0 tn t0 sid hr0 htk0 hiss0
      rw [hs] at hs'
      cases hs'
      have := fold_clearClaims_issue_cleared _ _ hmemexp hm ht1
      rw [hsid] at this
      exact this hbad
    · intro hbad
      have hcl0 : t0.claimant = some sid := by
        rcases hw.2.2.2.2 with h' | h'
        · rw [h'] at hbad; exact hbad
        · rw [h'] at hbad; cases hbad
      obtain ⟨s', hs', hm⟩ := hinv.claimLive rn r0 tn t0 sid hr0 htk0 hcl0
      rw [hs] at hs'
      cases hs'
      have := fold_clearClaims_claim_cleared _ _ hmemexp hm ht1
      rw [hsid] at this
      exact this hbad

/-- State for the C4 witness: one issuer session holding one issued ticket. -/
def c4wSt : State :=
  issueS (openSession State.empty "i1" "issuer" "ANY" 1000 0) "i1" "r" "foo" [] 0

/-- The nulled ticket that survives `CloseSession` in the C4 witness state. -/
def c4wT : Ticket := ⟨"foo", "r", [], none, none⟩

/-- The issuer session recorded in the C4 witness state. -/
def c4wSess : Session :=
  ⟨"issuer", "i1", "ANY", 1000, [], [("r", "foo")], 1000⟩

theorem c4_no_refs_after_close_or_expire_witness :
    fetchTicketPtr ("r", "foo") (closeS c4wSt "i1").resources = some c4wT ∧
    ((fetchTicketPtr ("r", "foo") (closeS c4wSt "i1").resources = some c4wT →
        c4wT.issuer ≠ some "i1" ∧ c4wT.claimant ≠ some "i1") ∧
     (c4wSess.expires < 2000 →
        fetchTicketPtr ("r", "foo") (expireS c4wSt 2000).resources = some c4wT →
        c4wT.issuer ≠ some "i1" ∧ c4wT.claimant ≠ some "i1")) := by
  refine ⟨by decide, ?_⟩
  have hreach : Reachable c4wSt := by
    have h1 : Reachable (openSession State.empty "i1" "issuer" "ANY" 1000 0) :=
      Reachable.openStep Reachable.empty (by decide)
    exact Reachable.issueStep h1
  exact c4_no_refs_after_close_or_expire hreach (by decide) ("r", "foo") c4wT 2000

/-! ### C9: claimed back-references vs canonical tickets -/

/-- The claim as stated: every `(resourceName, name)` pair in a session's
claimed list resolves to a live canonical ticket whose claimant is that
session. -/
def C9Claim (st : State) : Prop :=
  ∀ sid s, alookup sid st.sessions = some s →
    ∀ k ∈ s.tickets, ∃ t, fetchTicketPtr k st.resources = some t ∧ t.claimant = some sid

/-- The claimant session as it stands in the post-sweep state `c9St`. -/
def c9Sess : Session := ⟨"claimant", "c1", "ANY", 1000, [("r", "foo")], [], 1000⟩

/-- Issue, claim, then close the issuer and run a sweep: the sweep deletes the
issuer-less ticket but leaves the claimant's back-reference in place. -/
def c9s4 : State :=
  claimS (issueS (openSession (openSession State.empty "i1" "issuer" "ANY" 1000 0)
    "c1" "claimant" "ANY" 1000 0) "i1" "r" "foo" [] 0) "c1" "r"

/-- The post-sweep state with the stale claimed back-reference. -/
def c9St : State := expireS (closeS c9s4 "i1") 1

/-- **C9, counterexample.** A reachable state in which session `c1` still
lists ticket `("r","foo")` as claimed while the canonical ticket no longer
exists: close the issuer (nulling the ticket's issuer) and run one sweep (the
null-issuer purge deletes the ticket but never touches claimant back-refs). -/
theorem c9_claims_counterexample : Reachable c9St ∧ ¬ C9Claim c9St := by
  constructor
  · have h1 : Reachable (openSession State.empty "i1" "issuer" "ANY" 1000 0) :=
      Reachable.openStep Reachable.empty (by decide)
    have h2 : Reachable (openSession (openSession State.empty "i1" "issuer" "ANY" 1000 0)
        "c1" "claimant" "ANY" 1000 0) :=
      Reachable.openStep h1 (by decide)
    have h3 : Reachable (issueS (openSession (openSession State.empty "i1" "issuer" "ANY" 1000 0)
        "c1" "claimant" "ANY" 1000 0) "i1" "r" "foo" [] 0) :=
      Reachable.issueStep h2
    have h4 : Reachable c9s4 := Reachable.claimStep h3
    have h5 : Reachable (closeS c9s4 "i1") := Reachable.closeStep h4
    exact Reachable.expireStep h5
  · intro h
    obtain ⟨t, ht, -⟩ := h "c1" c9Sess (by decide) ("r", "foo") (by decide)
    rw [show fetchTicketPtr ("r", "foo") c9St.resources = none from by decide] at ht
    cases ht

/-- **C9, amended.** The direction that does hold on every reachable state:
every canonical ticket with a non-null claimant points at a live session whose
claimed list contains the ticket's `(resourceName, name)` key.  (The stated
direction fails: claimed back-references can dangle after the sweep or a
revoke deletes the canonical ticket.) -/
theorem c9_claims_amended {st : State} (hreach : Reachable st)
    {rn : String} {r : Resource} {tn : String} {t : Ticket} {c : String}
    (hr : alookup rn st.resources = some r) (ht : alookup tn r.tickets = some t)
    (hc : t.claimant = some c) :
    ∃ s, alookup c st.sessions = some s ∧ ((rn, tn) : TKey) ∈ s.tickets :=
  (reachable_inv hreach).claimLive rn r tn t c hr ht hc

/-- The canonical claimed ticket and its resource in the pre-close state `c9s4`. -/
def c9wTick : Ticket := ⟨"foo", "r", [], some "i1", some "c1"⟩

/-- The resource holding `c9wTick` in `c9s4`. -/
def c9wRes : Resource := ⟨"r", false, [("foo", c9wTick)]⟩

theorem c9_claims_amended_witness :
    ∃ s, alookup "c1" c9s4.sessions = some s ∧ (("r", "foo") : TKey) ∈ s.tickets := by
  have h1 : Reachable (openSession State.empty "i1" "issuer" "ANY" 1000 0) :=
    Reachable.openStep Reachable.empty (by decide)
  have h2 : Reachable (openSession (openSession State.empty "i1" "issuer" "ANY" 1000 0)
      "c1" "claimant" "ANY" 1000 0) :=
    Reachable.openStep h1 (by decide)
  have h3 : Reachable (issueS (openSession (openSession State.empty "i1" "issuer" "ANY" 1000 0)
      "c1" "claimant" "ANY" 1000 0) "i1" "r" "foo" [] 0) :=
    Reachable.issueStep h2
  have h4 : Reachable c9s4 := Reachable.claimStep h3
  exact c9_claims_amended h4
    (by decide : alookup "r" c9s4.resources = some c9wRes)
    (by decide : alookup "foo" c9wRes.tickets = some c9wTick)
    (by decide : c9wTick.claimant = some "c1")

/-! ### C10: the lock-ticket issuer dereference -/

/-- Take a lock, then close the holder: `clearClaims` nulls the lock ticket's
issuer but the ticket stays in the lockable resource until the next sweep. -/
def c10St : State :=
  closeS (lockS (openSession (openSession State.empty "s1" "holder" "ANY" 1000 0)
    "s2" "waiter" "ANY" 1000 0) "s1" "L") "s1"

/-- **C10, refuted.** A reachable state whose lockable resource `L` holds a
ticket with a null issuer, and on it both `Lock` and `Unlock` by the surviving
session hit the unguarded `ticket.Issuer.Id` dereference (modelled as the
`none` outcome): the claimed safety property fails in exactly the
close-then-no-sweep window it rules out. -/
theorem c10_lock_nil_issuer_panic :
    Reachable c10St ∧
    alookup "L" c10St.resources
      = some ⟨"L", true, [("L", Ticket.mk "L" "L" [] none none)]⟩ ∧
    lock c10St "s2" "L" = none ∧
    unlock c10St "s2" "L" = none := by
  refine ⟨?_, by decide, rfl, rfl⟩
  have h1 : Reachable (openSession State.empty "s1" "holder" "ANY" 1000 0) :=
    Reachable.openStep Reachable.empty (by decide)
  have h2 : Reachable (openSession (openSession State.empty "s1" "holder" "ANY" 1000 0)
      "s2" "waiter" "ANY" 1000 0) :=
    Reachable.openStep h1 (by decide)
  have h3 : Reachable (lockS (openSession (openSession State.empty "s1" "holder" "ANY" 1000 0)
      "s2" "waiter" "ANY" 1000 0) "s1" "L") :=
    Reachable.lockStep h2
  exact Reachable.closeStep h3

end TicketD
